import Mathlib

/-!
# Table2: a two-dimensional table of floats (src/table.c)

A shallow embedding of `src/table.c`.

* `int` is a 32 bit wrap-around integer.  Integers are modelled by `Int`; every
  arithmetic result the program stores in an `int` (`nr * nc`, `r * columns`,
  `(r * columns) + c`, `idx++`) goes through `wrapInt`, so a signed overflow
  wraps modulo `2^32` as it does on the usual targets.  Loop counters stay below
  their `int` bound and are not wrapped.
* `float` values are only stored and copied by the table code, so the element
  type is a parameter `α`.
* `float *values` is `Option (List α)`: `none` is the NULL pointer, `some cells`
  is a pointer to a heap block holding `cells`.  Reading or writing through NULL
  or outside the block is a `Fault`.
* `Table2 *t` is `Option (Table2 α)`; a function that writes through `t` returns
  the new contents of `*t` next to its return code.
* `malloc` of a positive `int` number of floats succeeds and returns a block
  whose cells hold indeterminate values, given by a function `junk` from the
  cell number to a value; `malloc(sizeof(Table2))` succeeds; `free` has no
  effect that the table functions can observe.
-/

namespace T2

/-! ## Machine integers and memory -/

/-- Largest value of the C type `int`. -/
def INT_MAX : Int := 2147483647

/-- Smallest value of the C type `int`. -/
def INT_MIN : Int := -2147483648

/-- Reduction of a mathematical integer to the 32 bit wrap-around `int`. -/
def wrapInt (x : Int) : Int := (x + 2147483648) % 4294967296 - 2147483648

/-- Invalid memory access: a read or write through NULL or outside a block. -/
inductive Fault where
  | memory : Fault
deriving DecidableEq, Repr

deriving instance DecidableEq for Except

/-- Reason for which a loop body stops the enclosing function: an invalid memory
access, or a `return code;` statement inside the loop. -/
inductive Stop where
  | fault : Stop
  | ret (code : Int) : Stop
deriving DecidableEq, Repr

/-- The struct `Table2` of table.c: `float *values; int columns; int rows;`. -/
structure Table2 (α : Type) where
  values : Option (List α)
  columns : Int
  rows : Int
deriving DecidableEq, Repr

def T2_OK : Int := 0
def T2_ERR_OUT_OF_RANGE : Int := 1
def T2_ERR_NULL_POINTER : Int := 2
def T2_ERR_INVALID_SIZE : Int := 3
def T2_ERR_LAST : Int := 4

variable {α : Type}

/-- The read `p[idx]`. -/
def load (p : Option (List α)) (idx : Int) : Except Fault α :=
  match p with
  | none => .error .memory
  | some cells =>
    if idx < 0 then .error .memory
    else
      match cells[idx.toNat]? with
      | some v => .ok v
      | none => .error .memory

/-- The write `p[idx] = v`; the result is the block after the write. -/
def store (p : Option (List α)) (idx : Int) (v : α) : Except Fault (Option (List α)) :=
  match p with
  | none => .error .memory
  | some cells =>
    if idx < 0 then .error .memory
    else if idx.toNat < cells.length then .ok (some (cells.set idx.toNat v))
    else .error .memory

/-- The call `(float*) malloc(nvals * sizeof(float))` for an `int nvals`.  A positive
count (at most `INT_MAX` floats) is granted as a block of `nvals` cells of
indeterminate content `junk 0, junk 1, ...`.  A negative count converts to a
`size_t` request of at least `2^64 - 2^33` bytes, which no allocator grants: the
result is NULL.  (The program never calls it with `nvals = 0`.) -/
def malloc_floats (junk : Nat → α) (nvals : Int) : Option (List α) :=
  if 0 < nvals then some ((List.range nvals.toNat).map junk) else none

/-- A counting loop `for (int i = lo; i < hi; ++i) body`, run for `n` more
iterations from counter value `i`. -/
def forLoopAux {ε σ : Type} (body : Int → σ → Except ε σ) : Nat → Int → σ → Except ε σ
  | 0, _, s => .ok s
  | n + 1, i, s =>
    match body i s with
    | .error e => .error e
    | .ok s' => forLoopAux body n (i + 1) s'

/-- The loop `for (int i = lo; i < hi; ++i) body`; the body changes neither the
counter nor the bound, so it runs `hi - lo` times when `lo < hi` and not at all
otherwise. -/
def forLoop {ε σ : Type} (lo hi : Int) (body : Int → σ → Except ε σ) (s : σ) : Except ε σ :=
  forLoopAux body (hi - lo).toNat lo s

/-! ## The functions of table.c -/

/-- The function `Table2* t2_new(int nr, int nc, float initval)`; `none` is the NULL result. -/
def t2_new (junk : Nat → α) (nr nc : Int) (initval : α) : Except Fault (Option (Table2 α)) :=
  if nr < 0 ∨ nc < 0 then .ok none
  else
    let nvals := wrapInt (nr * nc)
    if nvals = 0 then .ok (some { values := none, columns := nc, rows := nr })
    else
      match forLoop 0 nvals (fun i p => store p i initval) (malloc_floats junk nvals) with
      | .error e => .error e
      | .ok p => .ok (some { values := p, columns := nc, rows := nr })

/-- The function `int t2_clear(Table2 *t)`: the return code and the contents of `*t` afterwards. -/
def t2_clear (t : Option (Table2 α)) : Int × Option (Table2 α) :=
  match t with
  | none => (T2_ERR_NULL_POINTER, none)
  | some t =>
    let t1 : Table2 α := if t.values.isSome then { t with values := none } else t
    (T2_OK, some { t1 with rows := 0, columns := 0 })

/-- The function `int t2_get(Table2 *t, int r, int c, float *ret)`: `ret` is `none` for a NULL
destination and `some d` for a destination currently holding `d`; the result is
the return code and the destination afterwards. -/
def t2_get (t : Option (Table2 α)) (r c : Int) (ret : Option α) : Except Fault (Int × Option α) :=
  match ret, t with
  | none, _ => .ok (T2_ERR_NULL_POINTER, ret)
  | some _, none => .ok (T2_ERR_NULL_POINTER, ret)
  | some _, some t =>
    if r < 0 ∨ r ≥ t.rows ∨ c < 0 ∨ c ≥ t.columns then .ok (T2_ERR_OUT_OF_RANGE, ret)
    else
      let idx := wrapInt (wrapInt (r * t.columns) + c)
      match load t.values idx with
      | .error e => .error e
      | .ok v => .ok (T2_OK, some v)

/-- The function `int t2_set(Table2 *t, int r, int c, float val)`: the return code and the
contents of `*t` afterwards. -/
def t2_set (t : Option (Table2 α)) (r c : Int) (val : α) : Except Fault (Int × Option (Table2 α)) :=
  match t with
  | none => .ok (T2_ERR_NULL_POINTER, none)
  | some t =>
    if r < 0 ∨ r ≥ t.rows ∨ c < 0 ∨ c ≥ t.columns then .ok (T2_ERR_OUT_OF_RANGE, some t)
    else
      let idx := wrapInt (wrapInt (r * t.columns) + c)
      match store t.values idx val with
      | .error e => .error e
      | .ok p => .ok (T2_OK, some { t with values := p })

/-- State of the copy loops of `t2_resize`: the new block `nv`, the write
position `idx` and the local `val`. -/
structure Copy (α : Type) where
  nv : Option (List α)
  idx : Int
  val : α

/-- The statement `nv[idx++] = v;`. -/
def push (v : α) (s : Copy α) : Except Stop (Copy α) :=
  match store s.nv s.idx v with
  | .error _ => .error .fault
  | .ok nv => .ok { s with nv := nv, idx := wrapInt (s.idx + 1) }

/-- Body of the innermost copy loop of `t2_resize`:
`if ((retcode = t2_get(t, r, c, &val)) != T2_OK) { free(nv); return retcode; } nv[idx++] = val;`. -/
def copyCell (t : Table2 α) (r c : Int) (s : Copy α) : Except Stop (Copy α) :=
  match t2_get (some t) r c (some s.val) with
  | .error _ => .error .fault
  | .ok (retcode, ret) =>
    let s1 : Copy α := { s with val := ret.getD s.val }
    if retcode ≠ T2_OK then .error (.ret retcode)
    else push s1.val s1

/-- Body of the first row loop of `t2_resize`: the first `ccopy` cells of row `r`
are copied from the old table, the cells of columns `ccopy..nc` get `initval`. -/
def copyRow (t : Table2 α) (nc ccopy : Int) (initval : α) (r : Int) (s : Copy α) :
    Except Stop (Copy α) :=
  match forLoop 0 ccopy (fun c s => copyCell t r c s) s with
  | .error e => .error e
  | .ok s => forLoop ccopy nc (fun _ s => push initval s) s

/-- Body of the second row loop of `t2_resize`: a whole row of `initval`. -/
def fillRow (nc : Int) (initval : α) (s : Copy α) : Except Stop (Copy α) :=
  forLoop 0 nc (fun _ s => push initval s) s

/-- The function `int t2_resize(Table2 *t, int nr, int nc, float initval)`: the return code and
the contents of `*t` afterwards. -/
def t2_resize (junk : Nat → α) (t : Option (Table2 α)) (nr nc : Int) (initval : α) :
    Except Fault (Int × Option (Table2 α)) :=
  match t with
  | none => .ok (T2_ERR_NULL_POINTER, none)
  | some t =>
    if nr < 0 ∨ nc < 0 then .ok (T2_ERR_INVALID_SIZE, some t)
    else
      let nvals := wrapInt (nr * nc)
      if nvals = 0 then .ok (T2_OK, (t2_clear (some t)).2)
      else
        let nv := malloc_floats junk nvals
        let rcopy := if nr < t.rows then nr else t.rows
        let ccopy := if nc < t.columns then nc else t.columns
        let s0 : Copy α := { nv := nv, idx := 0, val := junk 0 }
        match forLoop 0 rcopy (fun r s => copyRow t nc ccopy initval r s) s0 with
        | .error .fault => .error .memory
        | .error (.ret retcode) => .ok (retcode, some t)
        | .ok s1 =>
          match forLoop rcopy nr (fun _ s => fillRow nc initval s) s1 with
          | .error .fault => .error .memory
          | .error (.ret retcode) => .ok (retcode, some t)
          | .ok s2 => .ok (T2_OK, some { values := s2.nv, columns := nc, rows := nr })

/-- The function `int t2_free(Table2 **t)`: the handle `t` is `none` when the
pointer to the handle is NULL, `some none` when the handle holds NULL and
`some (some tab)` when it holds a table; the result is the return code and the
handle afterwards (with the table record as `t2_clear` left it when nothing is
released). -/
def t2_free (t : Option (Option (Table2 α))) : Int × Option (Option (Table2 α)) :=
  match t with
  | none => (T2_ERR_NULL_POINTER, none)
  | some h =>
    let cleared := t2_clear h
    if cleared.1 ≠ T2_OK then (cleared.1, some cleared.2)
    else (T2_OK, some none)

/-- The array `sErrs` of `t2_errstr`. -/
def sErrs : List String :=
  ["No error", "Index out of range", "Invalid pointers", "Invalid size"]

/-- The function `const char* t2_errstr(int code)`. -/
def t2_errstr (code : Int) : Except Fault String :=
  if code < 0 ∨ code ≥ T2_ERR_LAST then .ok "Unknown error"
  else load (some sErrs) code

/-- State of the loops of `t2_print`: the texts written to stdout so far, one per
`fprintf` call, and the local `val`. -/
structure Print (α : Type) where
  out : List String
  val : α

/-- Reason for which a loop body of `t2_print` stops the function: an invalid
memory access, or the `return retcode;` after a failed `t2_get`, with the texts
written to stdout and stderr. -/
inductive PrintStop where
  | fault : PrintStop
  | ret (code : Int) (out err : List String) : PrintStop

/-- Body of the column loop of `t2_print`; `fmt` renders a float under `%f`. -/
def printCell (fmt : α → String) (t : Table2 α) (r c : Int) (s : Print α) :
    Except PrintStop (Print α) :=
  match t2_get (some t) r c (some s.val) with
  | .error _ => .error .fault
  | .ok (retcode, ret) =>
    let val := ret.getD s.val
    if retcode ≠ T2_OK then
      match t2_errstr retcode with
      | .error _ => .error .fault
      | .ok msg => .error (.ret retcode s.out [msg ++ "\n"])
    else
      .ok { out := s.out ++ [if c + 1 < t.columns then fmt val ++ ", " else fmt val],
            val := val }

/-- Body of the row loop of `t2_print`. -/
def printRow (fmt : α → String) (t : Table2 α) (r : Int) (s : Print α) :
    Except PrintStop (Print α) :=
  match forLoop 0 t.columns (fun c s => printCell fmt t r c s)
      { s with out := s.out ++ ["  ["] } with
  | .error e => .error e
  | .ok s => .ok { s with out := s.out ++ ["]\n"] }

/-- The function `int t2_print(Table2 *t)`: the return code and the texts the call
writes to stdout and to stderr, one per `fprintf` call. -/
def t2_print (junk : Nat → α) (fmt : α → String) (t : Option (Table2 α)) :
    Except Fault (Int × List String × List String) :=
  match t with
  | none => .ok (T2_ERR_NULL_POINTER, [], [])
  | some t =>
    let header := "Table " ++ toString t.rows ++ "x" ++ toString t.columns ++ "\n"
    match forLoop 0 t.rows (fun r s => printRow fmt t r s)
        { out := [header], val := junk 0 } with
    | .error .fault => .error .memory
    | .error (.ret code out err) => .ok (code, out, err)
    | .ok s => .ok (T2_OK, s.out, [])

/-! ## Well-formed tables -/

/-- Number of cells of the block behind a `float*` (0 for NULL). -/
def storeLen (p : Option (List α)) : Int :=
  match p with
  | none => 0
  | some cells => cells.length

/-- The data-model invariant: `rows >= 0`, `columns >= 0`, the backing store holds
exactly `rows * columns` cells, and it is empty or absent when that product is 0. -/
def StoreInv (t : Table2 α) : Prop :=
  0 ≤ t.rows ∧ 0 ≤ t.columns ∧ storeLen t.values = t.rows * t.columns ∧
    (t.rows * t.columns = 0 → (t.values.getD []).length = 0)

/-- The element count `rows * columns` is representable as an `int`. -/
def Representable (t : Table2 α) : Prop := t.rows * t.columns ≤ INT_MAX

instance (t : Table2 α) : Decidable (StoreInv t) := by
  unfold StoreInv; infer_instance

instance (t : Table2 α) : Decidable (Representable t) := by
  unfold Representable; infer_instance

/-! ## Specification vocabulary and sample tables -/

/-- The value of cell `(r, c)` in the row-major store, if there is one. -/
def cellAt (t : Table2 α) (r c : Int) : Option α :=
  (t.values.getD [])[(r * t.columns + c).toNat]?

/-- A table of 65536 x 65536 cells whose store really holds `65536 * 65536` cells. -/
def hugeTable : Table2 Nat :=
  { values := some (List.replicate (65536 * 65536) 0), columns := 65536, rows := 65536 }

/-- The value `t2_resize` is to leave in cell `(r, c)` of the new store: the old
cell inside the old bounds, the fill value elsewhere. -/
def expected (t : Table2 α) (fill : α) (r c : Int) : α :=
  if r < t.rows ∧ c < t.columns then (cellAt t r c).getD fill else fill

/-- The first `k` cells of the new store `l`, read as rows of `nc` cells, hold the
values `E`. -/
def Filled (nc : Int) (E : Int → Int → α) (l : List α) (k : Int) : Prop :=
  ∀ r c, 0 ≤ r → 0 ≤ c → c < nc → r * nc + c < k → l[(r * nc + c).toNat]? = some (E r c)

/-- Invariant of the copy loops: the write position is `k`, the new block has
`nvals` cells and its first `k` cells are final. -/
def CopyInv (nvals nc : Int) (E : Int → Int → α) (k : Int) (s : Copy α) : Prop :=
  s.idx = k ∧ ∃ l, s.nv = some l ∧ (l.length : Int) = nvals ∧ Filled nc E l k

/-- A table of 2 rows of 2147483647 cells whose store really holds all of them. -/
def wideTable : Table2 Nat :=
  { values := some (List.replicate (2 * 2147483647) 0), columns := 2147483647, rows := 2 }

/-- A populated 1 x 1 table. -/
def unitTable : Table2 Nat := { values := some [5], columns := 1, rows := 1 }

/-- A populated 2 x 2 table. -/
def squareTable : Table2 Nat := { values := some [1, 2, 3, 4], columns := 2, rows := 2 }

/-- The cleared table: no store, 0 x 0. -/
def emptyTable : Table2 α := { values := none, columns := 0, rows := 0 }

/-- State of the initialisation loops of `main`: the table behind `t`, the local
`val`, and the codes the `t2_set` calls have returned so far. -/
structure Init (α : Type) where
  t : Table2 α
  val : α
  codes : List Int

/-- The initialisation loops of `main`, `val` starting at `one`:
`for r < t->rows: for c < t->columns: t2_set(t, r, c, val); val += 1.0f;`. -/
def main_init (one : α) (fadd : α → α → α) (t : Table2 α) : Except Fault (Init α) :=
  forLoop 0 t.rows (fun r s =>
    forLoop 0 s.t.columns (fun c s =>
      match t2_set (some s.t) r c s.val with
      | .error e => .error e
      | .ok (code, t') =>
        .ok { t := t'.getD s.t, val := fadd s.val one, codes := s.codes ++ [code] }) s)
    { t := t, val := one, codes := [] }

/-- The table calls of `main`. -/
def main_table (junk : Nat → α) (zero one fill : α) (fadd : α → α → α) :
    Except Fault (List Int × Table2 α × Int × Option (Table2 α)) :=
  match t2_new junk 4 2 zero with
  | .error e => .error e
  | .ok none => .error .memory
  | .ok (some t) =>
    match main_init one fadd t with
    | .error e => .error e
    | .ok s =>
      match t2_resize junk (some s.t) 12 4 fill with
      | .error e => .error e
      | .ok (code, t') => .ok (s.codes, s.t, code, t')

/-- The text of a stream: the texts of the `fprintf` calls, one after the other. -/
def streamText : List String → String
  | [] => ""
  | s :: ss => s ++ streamText ss

/-- The values `vs` rendered by `fmt` and separated by `", "`, with no separator
after the last one. -/
def sepValues (fmt : α → String) : List α → String
  | [] => ""
  | [v] => fmt v
  | v :: w :: vs => fmt v ++ ", " ++ sepValues fmt (w :: vs)

/-- The row line of the values `vs`: an opening bracket after two blanks, the
separated values, a closing bracket. -/
def rowLine (fmt : α → String) (vs : List α) : String :=
  "  [" ++ sepValues fmt vs ++ "]"

/-- The values of row `r` in the row-major store, in column order. -/
def rowValues (t : Table2 α) (r : Int) : List α :=
  ((t.values.getD []).drop (r * t.columns).toNat).take t.columns.toNat

/-- The lines of the dump of a table: the header, then one line per row. -/
def tableLines (fmt : α → String) (t : Table2 α) : List String :=
  ("Table " ++ toString t.rows ++ "x" ++ toString t.columns) ::
    (List.range t.rows.toNat).map (fun (r : Nat) => rowLine fmt (rowValues t (r : Int)))

/-- The texts the column loop of `t2_print` writes for a row of values `vs`. -/
def rowChunks (fmt : α → String) : List α → List String
  | [] => []
  | [v] => [fmt v]
  | v :: w :: vs => (fmt v ++ ", ") :: rowChunks fmt (w :: vs)

/-- The texts the row loop of `t2_print` writes for the first `n` rows. -/
def printedRows (fmt : α → String) (t : Table2 α) : Nat → List String
  | 0 => []
  | n + 1 => printedRows fmt t n ++ ("  [" :: rowChunks fmt (rowValues t n) ++ ["]\n"])

/-- A 2 x 3 table filled with 1. -/
theorem t2_new_sample : t2_new (fun _ => (7 : Nat)) 2 3 1 =
    .ok (some { values := some [1, 1, 1, 1, 1, 1], columns := 3, rows := 2 }) := by decide

/-- A 2 x 3 table resized to 3 x 2 with fill 9. -/
theorem t2_resize_sample : t2_resize (fun _ => (7 : Nat)) (some { values := some [1, 2, 3, 4, 5, 6], columns := 3, rows := 2 }) 3 2 9 =
    .ok (T2_OK, some { values := some [1, 2, 4, 5, 9, 9], columns := 2, rows := 3 }) := by decide

/-! ## Arithmetic of row-major offsets -/

theorem wrapInt_eq (x : Int) (h1 : INT_MIN ≤ x) (h2 : x ≤ INT_MAX) : wrapInt x = x := by
  unfold wrapInt; unfold INT_MIN at h1; unfold INT_MAX at h2; omega

theorem cell_bound (R C r c : Int) (hr : 0 ≤ r) (hr' : r < R) (hc : 0 ≤ c) (hc' : c < C) :
    0 ≤ r * C ∧ r * C + c < R * C := by
  have hC : 0 ≤ C := by omega
  exact ⟨mul_nonneg hr hC, by nlinarith⟩

theorem cell_inj (C r c r' c' : Int) (hc : 0 ≤ c) (hc' : c < C) (hd : 0 ≤ c') (hd' : c' < C)
    (h : r * C + c = r' * C + c') : r = r' ∧ c = c' := by
  have hr : r = r' := by
    rcases lt_trichotomy r r' with h1 | h1 | h1
    · exfalso; nlinarith
    · exact h1
    · exfalso; nlinarith
  subst hr
  exact ⟨rfl, by omega⟩

/-- Within bounds and with a representable element count, the `int` computation
`(r * columns) + c` does not wrap. -/
theorem offset_eq (R C r c : Int) (hr : 0 ≤ r) (hr' : r < R) (hc : 0 ≤ c) (hc' : c < C)
    (hmax : R * C ≤ INT_MAX) : wrapInt (wrapInt (r * C) + c) = r * C + c := by
  obtain ⟨h0, h1⟩ := cell_bound R C r c hr hr' hc hc'
  have hm : INT_MIN ≤ 0 := by decide
  rw [wrapInt_eq (r * C) (by omega) (by omega), wrapInt_eq _ (by omega) (by omega)]

/-! ## Memory lemmas -/

theorem load_some (cells : List α) (idx : Int) (h0 : 0 ≤ idx) (v : α)
    (h : cells[idx.toNat]? = some v) : load (some cells) idx = .ok v := by
  simp [load, h, not_lt.mpr h0]

theorem store_some (cells : List α) (idx : Int) (h0 : 0 ≤ idx) (h1 : idx < cells.length) (v : α) :
    store (some cells) idx v = .ok (some (cells.set idx.toNat v)) := by
  have : idx.toNat < cells.length := by omega
  simp [store, this, not_lt.mpr h0]

/-- A non-empty store is a block. -/
theorem values_of_pos (t : Table2 α) (h : 0 < storeLen t.values) :
    ∃ cells, t.values = some cells ∧ (cells.length : Int) = storeLen t.values := by
  cases hv : t.values with
  | none => simp [hv, storeLen] at h
  | some cells => exact ⟨cells, rfl, by simp [storeLen]⟩

/-- On a well-formed table with representable size, an in-bounds `t2_get` returns
`T2_OK` and delivers the store element at offset `r * columns + c`. -/
theorem t2_get_in_bounds (t : Table2 α) (hinv : StoreInv t) (hmax : Representable t)
    (r c : Int) (hr : 0 ≤ r) (hr' : r < t.rows) (hc : 0 ≤ c) (hc' : c < t.columns) (d : α) :
    ∃ v, cellAt t r c = some v ∧ t2_get (some t) r c (some d) = .ok (T2_OK, some v) := by
  obtain ⟨_, _, hlen, _⟩ := hinv
  obtain ⟨h0, h1⟩ := cell_bound t.rows t.columns r c hr hr' hc hc'
  obtain ⟨cells, hcells, hl⟩ := values_of_pos t (by omega)
  have hk : (r * t.columns + c).toNat < cells.length := by omega
  refine ⟨cells[(r * t.columns + c).toNat], ?_, ?_⟩
  · simp [cellAt, hcells, List.getElem?_eq_getElem hk]
  · have hnb : ¬ (r < 0 ∨ r ≥ t.rows ∨ c < 0 ∨ c ≥ t.columns) := by omega
    simp only [t2_get, hnb, if_false, offset_eq t.rows t.columns r c hr hr' hc hc' hmax, hcells]
    rw [load_some cells _ (by omega) _ (List.getElem?_eq_getElem hk)]

/-- On a well-formed table with representable size, an in-bounds `t2_set` returns
`T2_OK` and overwrites the store element at offset `r * columns + c`. -/
theorem t2_set_in_bounds (t : Table2 α) (hinv : StoreInv t) (hmax : Representable t)
    (r c : Int) (hr : 0 ≤ r) (hr' : r < t.rows) (hc : 0 ≤ c) (hc' : c < t.columns) (v : α) :
    ∃ cells, t.values = some cells ∧ (cells.length : Int) = t.rows * t.columns ∧
      t2_set (some t) r c v =
        .ok (T2_OK, some { t with values := some (cells.set (r * t.columns + c).toNat v) }) := by
  obtain ⟨_, _, hlen, _⟩ := hinv
  obtain ⟨h0, h1⟩ := cell_bound t.rows t.columns r c hr hr' hc hc'
  obtain ⟨cells, hcells, hl⟩ := values_of_pos t (by omega)
  refine ⟨cells, hcells, by omega, ?_⟩
  have hnb : ¬ (r < 0 ∨ r ≥ t.rows ∨ c < 0 ∨ c ≥ t.columns) := by omega
  simp only [t2_set, hnb, if_false, offset_eq t.rows t.columns r c hr hr' hc hc' hmax, hcells]
  rw [store_some cells _ (by omega) (by omega)]

/-- Writing one cell keeps the table well formed. -/
theorem storeInv_set (t : Table2 α) (cells : List α) (k : Nat) (v : α) (hinv : StoreInv t)
    (hcells : t.values = some cells) :
    StoreInv { t with values := some (cells.set k v) } := by
  obtain ⟨h1, h2, h3, h4⟩ := hinv
  simp only [hcells, storeLen, Option.getD_some] at h3 h4
  exact ⟨h1, h2, by simpa [storeLen] using h3, by simpa using h4⟩

/-! ## Claims -/

theorem hugeTable_inv : StoreInv hugeTable := by
  refine ⟨by decide, by decide, ?_, ?_⟩
  · show ((List.replicate (65536 * 65536) 0).length : Int) = 65536 * 65536
    rw [List.length_replicate]; rfl
  · intro h; exact absurd h (by decide)

/-- On `hugeTable` the offset of cell `(32768, 0)` is `2^31`, which wraps to
`-2^31`: the write of `t2_set` falls outside the store. -/
theorem hugeTable_set_faults : t2_set (some hugeTable) 32768 0 1 = .error .memory := by
  have hw : wrapInt (wrapInt (32768 * 65536) + 0) = -2147483648 := by decide
  have hnb : ¬ ((32768 : Int) < 0 ∨ (32768 : Int) ≥ 65536 ∨ (0 : Int) < 0 ∨ (0 : Int) ≥ 65536) := by
    decide
  simp only [t2_set, hugeTable, hnb, if_false, hw, store]
  rfl

/-- C1 (as stated, refuted): the table `hugeTable` satisfies the store-length
invariant and `(32768, 0)` is within its bounds, but `t2_set` there does not
return OK: the offset `32768 * 65536` does not fit an `int`, wraps to `-2^31`, and
the write falls outside the store. -/
theorem c1_set_huge_table_faults :
    StoreInv hugeTable ∧ (0 : Int) ≤ 32768 ∧ (32768 : Int) < hugeTable.rows ∧
      (0 : Int) < hugeTable.columns ∧
      t2_set (some hugeTable) 32768 0 1 = .error .memory :=
  ⟨hugeTable_inv, by decide, by decide, by decide, hugeTable_set_faults⟩

/-- C1 (amended): on a table satisfying the store-length invariant whose element
count `rows * columns` fits an `int`, for every in-bounds `(r, c)` and value `v`,
`t2_set` returns OK, a following `t2_get` at `(r, c)` returns OK with `v`, and
`t2_get` at every other in-bounds cell returns what it returned before the set. -/
theorem c1_set_then_get (t : Table2 α) (hinv : StoreInv t) (hmax : Representable t)
    (r c : Int) (hr : 0 ≤ r ∧ r < t.rows) (hc : 0 ≤ c ∧ c < t.columns) (v : α) :
    ∃ t', t2_set (some t) r c v = .ok (T2_OK, some t') ∧
      (∀ d, t2_get (some t') r c (some d) = .ok (T2_OK, some v)) ∧
      (∀ r' c', 0 ≤ r' → r' < t.rows → 0 ≤ c' → c' < t.columns → (r', c') ≠ (r, c) →
        ∀ d, t2_get (some t') r' c' (some d) = t2_get (some t) r' c' (some d)) := by
  obtain ⟨cells, hcells, hlen, hset⟩ :=
    t2_set_in_bounds t hinv hmax r c hr.1 hr.2 hc.1 hc.2 v
  obtain ⟨h0, h1⟩ := cell_bound t.rows t.columns r c hr.1 hr.2 hc.1 hc.2
  have hinv' := storeInv_set t cells (r * t.columns + c).toNat v hinv hcells
  have hmax' : Representable { t with values := some (cells.set (r * t.columns + c).toNat v) } := hmax
  refine ⟨_, hset, ?_, ?_⟩
  · intro d
    obtain ⟨w, hw, hget⟩ := t2_get_in_bounds _ hinv' hmax' r c hr.1 hr.2 hc.1 hc.2 d
    have hk : (r * t.columns + c).toNat < cells.length := by omega
    simp [cellAt, hk] at hw
    rw [hget, hw]
  · intro r' c' hr0 hr1 hc0 hc1 hne d
    obtain ⟨w, hw, hget⟩ := t2_get_in_bounds _ hinv' hmax' r' c' hr0 hr1 hc0 hc1 d
    obtain ⟨w', hw', hget'⟩ := t2_get_in_bounds t hinv hmax r' c' hr0 hr1 hc0 hc1 d
    obtain ⟨h0', h1'⟩ := cell_bound t.rows t.columns r' c' hr0 hr1 hc0 hc1
    have hk : (r * t.columns + c).toNat ≠ (r' * t.columns + c').toNat := by
      intro h
      have h' : r' * t.columns + c' = r * t.columns + c := by omega
      obtain ⟨e1, e2⟩ := cell_inj t.columns r' c' r c hc0 hc1 hc.1 hc.2 h'
      exact hne (by rw [e1, e2])
    simp only [cellAt, Option.getD_some, List.getElem?_set_ne hk] at hw
    simp only [cellAt, hcells, Option.getD_some] at hw'
    rw [hget, hget', ← hw, ← hw']

theorem c1_set_then_get_witness :
    ∃ t', t2_set (some squareTable) 1 0 9 = .ok (T2_OK, some t') ∧
      (∀ d, t2_get (some t') 1 0 (some d) = .ok (T2_OK, some 9)) ∧
      (∀ r' c', 0 ≤ r' → r' < squareTable.rows → 0 ≤ c' → c' < squareTable.columns →
        (r', c') ≠ (1, 0) →
        ∀ d, t2_get (some t') r' c' (some d) = t2_get (some squareTable) r' c' (some d)) :=
  c1_set_then_get squareTable (by decide) (by decide) 1 0 (by decide) (by decide) 9

/-! ## Loops -/

/-- Invariant rule for counting loops: a body that preserves `P` and never stops
makes the loop terminate normally in a state satisfying `P` at the bound. -/
theorem forLoopAux_inv {ε σ : Type} (body : Int → σ → Except ε σ) (P : Int → σ → Prop) (hi : Int)
    (hstep : ∀ i s, i < hi → P i s → ∃ s', body i s = .ok s' ∧ P (i + 1) s') :
    ∀ (n : Nat) (i : Int) (s : σ), i + n = hi → P i s →
      ∃ s', forLoopAux body n i s = .ok s' ∧ P hi s' := by
  intro n
  induction n with
  | zero =>
    intro i s hn hP
    have : i = hi := by simpa using hn
    subst this
    exact ⟨s, rfl, hP⟩
  | succ n ih =>
    intro i s hn hP
    obtain ⟨s1, hb, hP1⟩ := hstep i s (by push_cast at hn; omega) hP
    obtain ⟨s2, hl, hP2⟩ := ih (i + 1) s1 (by push_cast at hn; omega) hP1
    exact ⟨s2, by simp only [forLoopAux, hb, hl], hP2⟩

theorem forLoop_inv {ε σ : Type} (lo hi : Int) (body : Int → σ → Except ε σ)
    (P : Int → σ → Prop) (hle : lo ≤ hi)
    (hstep : ∀ i s, lo ≤ i → i < hi → P i s → ∃ s', body i s = .ok s' ∧ P (i + 1) s')
    (s : σ) (h0 : P lo s) : ∃ s', forLoop lo hi body s = .ok s' ∧ P hi s' := by
  have h := forLoopAux_inv body (fun i s => lo ≤ i ∧ P i s) hi
    (fun i s hlt hP => by
      obtain ⟨s', hb, hP'⟩ := hstep i s hP.1 hlt hP.2
      exact ⟨s', hb, by omega, hP'⟩)
    (hi - lo).toNat lo s (by omega) ⟨le_refl _, h0⟩
  obtain ⟨s', hl, _, hP⟩ := h
  exact ⟨s', hl, hP⟩

/-- A loop with an empty range leaves the state as it is. -/
theorem forLoop_empty {ε σ : Type} (lo hi : Int) (body : Int → σ → Except ε σ) (s : σ)
    (h : hi ≤ lo) : forLoop lo hi body s = .ok s := by
  have : (hi - lo).toNat = 0 := by omega
  simp [forLoop, this, forLoopAux]

/-! ## Construction -/

/-- The initialisation loop of `t2_new` turns a block of `n` cells into `n`
copies of `initval`. -/
theorem init_loop (cells : List α) (n : Int) (hn : 0 ≤ n) (hlen : (cells.length : Int) = n)
    (x : α) :
    forLoop 0 n (fun i p => store p i x) (some cells) = .ok (some (List.replicate n.toNat x)) := by
  obtain ⟨p, hp, _, l, hl, hlen', hfill⟩ := forLoop_inv 0 n (fun i p => store p i x)
    (fun i p => 0 ≤ i ∧ ∃ l : List α, p = some l ∧ (l.length : Int) = n ∧
      ∀ j : Nat, (j : Int) < i → l[j]? = some x) hn
    (fun i p h0 hlt hP => by
      obtain ⟨_, l, hl, hlen', hfill⟩ := hP
      subst hl
      refine ⟨_, store_some l i h0 (by omega) x, by omega, _, rfl, by simpa using hlen', ?_⟩
      intro j hj
      by_cases hji : j = i.toNat
      · subst hji
        have : i.toNat < l.length := by omega
        simp [this]
      · rw [List.getElem?_set_ne (Ne.symm hji)]
        exact hfill j (by omega))
    (some cells) ⟨le_refl _, cells, rfl, hlen, fun j hj => absurd hj (by omega)⟩
  rw [hp, hl]
  congr 2
  apply List.ext_getElem?
  intro j
  by_cases hj : (j : Int) < n
  · have : j < n.toNat := by omega
    rw [hfill j hj]
    simp [List.getElem?_replicate, this]
  · have h1 : l.length ≤ j := by omega
    have h2 : ¬ j < n.toNat := by omega
    simp [List.getElem?_replicate, h2, h1]

theorem malloc_floats_pos (junk : Nat → α) (n : Int) (h : 0 < n) :
    ∃ cells, malloc_floats junk n = some cells ∧ (cells.length : Int) = n := by
  refine ⟨(List.range n.toNat).map junk, by simp [malloc_floats, h], ?_⟩
  simp only [List.length_map, List.length_range]
  omega

/-- With non-negative dimensions whose product fits an `int`, `t2_new` returns a
table whose store is absent for a zero product and holds `nr * nc` copies of
`initval` otherwise. -/
theorem t2_new_eq (junk : Nat → α) (nr nc : Int) (x : α) (hnr : 0 ≤ nr) (hnc : 0 ≤ nc)
    (hmax : nr * nc ≤ INT_MAX) :
    t2_new junk nr nc x = .ok (some
      { values := if nr * nc = 0 then none else some (List.replicate (nr * nc).toNat x),
        columns := nc, rows := nr }) := by
  have hprod : 0 ≤ nr * nc := mul_nonneg hnr hnc
  have hneg : ¬ (nr < 0 ∨ nc < 0) := by omega
  have hw : wrapInt (nr * nc) = nr * nc :=
    wrapInt_eq _ (le_trans (by decide) hprod) hmax
  simp only [t2_new, hneg, if_false, hw]
  by_cases h0 : nr * nc = 0
  · simp [h0]
  · obtain ⟨cells, hm, hl⟩ := malloc_floats_pos junk (nr * nc) (by omega)
    simp only [h0, if_false, hm, init_loop cells (nr * nc) hprod hl x]

/-- The function `t2_new` never stops on an invalid memory access, whatever `int` the product
of the dimensions wraps to. -/
theorem t2_new_total (junk : Nat → α) (nr nc : Int) (x : α) (hnr : 0 ≤ nr) (hnc : 0 ≤ nc) :
    ∃ p, t2_new junk nr nc x = .ok (some { values := p, columns := nc, rows := nr }) := by
  have hneg : ¬ (nr < 0 ∨ nc < 0) := by omega
  simp only [t2_new, hneg, if_false]
  by_cases h0 : wrapInt (nr * nc) = 0
  · exact ⟨none, by simp [h0]⟩
  · simp only [h0, if_false]
    by_cases hpos : 0 < wrapInt (nr * nc)
    · obtain ⟨cells, hm, hl⟩ := malloc_floats_pos junk _ hpos
      exact ⟨_, by rw [hm, init_loop cells _ (le_of_lt hpos) hl x]⟩
    · exact ⟨_, by rw [forLoop_empty _ _ _ _ (by omega)]⟩

/-- C3: for every present table (of any size, 0 x 0 included) and every `(r, c)`
with `r < 0`, `r >= rows`, `c < 0` or `c >= columns`, `t2_get` with a present
destination and `t2_set` both return OutOfRange, which is code 1. -/
theorem c3_out_of_range (t : Table2 α) (r c : Int)
    (h : r < 0 ∨ r ≥ t.rows ∨ c < 0 ∨ c ≥ t.columns) (d v : α) :
    t2_get (some t) r c (some d) = .ok (T2_ERR_OUT_OF_RANGE, some d) ∧
      t2_set (some t) r c v = .ok (T2_ERR_OUT_OF_RANGE, some t) ∧
      T2_ERR_OUT_OF_RANGE = 1 := by
  simp [t2_get, t2_set, h, T2_ERR_OUT_OF_RANGE]

theorem c3_out_of_range_witness :
    t2_get (some { values := none, columns := 0, rows := 0 }) 0 0 (some (5 : Nat)) =
        .ok (T2_ERR_OUT_OF_RANGE, some 5) ∧
      t2_set (some { values := none, columns := 0, rows := 0 }) 0 0 (6 : Nat) =
        .ok (T2_ERR_OUT_OF_RANGE, some { values := none, columns := 0, rows := 0 }) ∧
      T2_ERR_OUT_OF_RANGE = 1 :=
  c3_out_of_range { values := none, columns := 0, rows := 0 } 0 0 (by decide) 5 6

/-- C4 (as stated, refuted): `t2_new(65536, 65536, 7)` has non-negative
dimensions, yet the product wraps to 0 in `int`, no store is allocated while the
table reports 65536 x 65536, and `t2_get` at the in-bounds cell `(0, 0)` reads
through NULL instead of returning OK with 7. -/
theorem c4_new_overflow :
    t2_new (fun _ => (0 : Nat)) 65536 65536 7 =
        .ok (some { values := none, columns := 65536, rows := 65536 }) ∧
      t2_get (some { values := none, columns := 65536, rows := 65536 }) 0 0 (some (0 : Nat)) =
        .error .memory := by
  decide

/-- C4 (amended): for non-negative `R`, `C` whose product fits an `int`,
`t2_new(R, C, x)` returns a table with `rows = R`, `columns = C`, on which
`t2_get` at every in-bounds cell returns OK with `x`; when `R = 0` or `C = 0` the
store is absent and the table has zero elements. -/
theorem c4_new_cells (junk : Nat → α) (R C : Int) (x : α) (hR : 0 ≤ R) (hC : 0 ≤ C)
    (hmax : R * C ≤ INT_MAX) :
    ∃ t, t2_new junk R C x = .ok (some t) ∧ t.rows = R ∧ t.columns = C ∧
      (∀ r c, 0 ≤ r → r < R → 0 ≤ c → c < C →
        ∀ d, t2_get (some t) r c (some d) = .ok (T2_OK, some x)) ∧
      (R = 0 ∨ C = 0 → t.values = none ∧ storeLen t.values = 0) := by
  refine ⟨_, t2_new_eq junk R C x hR hC hmax, rfl, rfl, ?_, ?_⟩
  · intro r c hr hr' hc hc' d
    obtain ⟨h0, h1⟩ := cell_bound R C r c hr hr' hc hc'
    have hne : R * C ≠ 0 := by omega
    have hk : (r * C + c).toNat < (R * C).toNat := by omega
    have hnb : ¬ (r < 0 ∨ r ≥ R ∨ c < 0 ∨ c ≥ C) := by omega
    simp only [t2_get, hnb, if_false, offset_eq R C r c hr hr' hc hc' hmax, hne]
    rw [load_some _ _ (by omega) x (by simp [List.getElem?_replicate, hk])]
  · intro h
    have h0 : R * C = 0 := by rcases h with h | h <;> simp [h]
    simp [h0, storeLen]

theorem c4_new_cells_witness :
    ∃ t, t2_new (fun _ => (0 : Nat)) 2 3 7 = .ok (some t) ∧ t.rows = 2 ∧ t.columns = 3 ∧
      (∀ r c, 0 ≤ r → r < 2 → 0 ≤ c → c < 3 →
        ∀ d, t2_get (some t) r c (some d) = .ok (T2_OK, some 7)) ∧
      ((2 : Int) = 0 ∨ (3 : Int) = 0 → t.values = none ∧ storeLen t.values = 0) :=
  c4_new_cells (fun _ => 0) 2 3 7 (by decide) (by decide) (by decide)

/-- C5: with `nr < 0` or `nc < 0`, `t2_new` returns NULL (no table) for every
initial value; with `nr >= 0` and `nc >= 0` it returns a table, carrying the
requested dimensions. -/
theorem c5_new_rejects_negative (junk : Nat → α) (nr nc : Int) (x : α) :
    (nr < 0 ∨ nc < 0 → t2_new junk nr nc x = .ok none) ∧
      (0 ≤ nr → 0 ≤ nc →
        ∃ t, t2_new junk nr nc x = .ok (some t) ∧ t.rows = nr ∧ t.columns = nc) := by
  constructor
  · intro h
    simp [t2_new, h]
  · intro hnr hnc
    obtain ⟨p, hp⟩ := t2_new_total junk nr nc x hnr hnc
    exact ⟨_, hp, rfl, rfl⟩

theorem c5_new_rejects_negative_witness :
    t2_new (fun _ => (0 : Nat)) (-1) 3 7 = .ok none ∧
      ∃ t, t2_new (fun _ => (0 : Nat)) 2 3 7 = .ok (some t) ∧ t.rows = 2 ∧ t.columns = 3 :=
  ⟨(c5_new_rejects_negative (fun _ => 0) (-1) 3 7).1 (by decide),
   (c5_new_rejects_negative (fun _ => 0) 2 3 7).2 (by decide) (by decide)⟩

/-! ## Resize -/

theorem push_step (nr nc : Int) (E : Int → Int → α) (hmax : nr * nc ≤ INT_MAX)
    (r c : Int) (hr : 0 ≤ r) (hr' : r < nr) (hc : 0 ≤ c) (hc' : c < nc) (v : α) (hv : v = E r c)
    (s : Copy α) (hs : CopyInv (nr * nc) nc E (r * nc + c) s) :
    ∃ s', push v s = .ok s' ∧ CopyInv (nr * nc) nc E (r * nc + (c + 1)) s' := by
  obtain ⟨hidx, l, hl, hlen, hfill⟩ := hs
  obtain ⟨h0, h1⟩ := cell_bound nr nc r c hr hr' hc hc'
  have hm : INT_MIN ≤ 0 := by decide
  have hst := store_some l (r * nc + c) (by omega) (by omega) v
  refine ⟨{ s with nv := some (l.set (r * nc + c).toNat v), idx := wrapInt (s.idx + 1) }, ?_, ?_, _,
    rfl, by simpa using hlen, ?_⟩
  · simp only [push, hl, hidx, hst]
  · show wrapInt (s.idx + 1) = r * nc + (c + 1)
    rw [hidx, wrapInt_eq _ (by omega) (by omega)]; ring
  · intro r' c' hr0 hc0 hc1 hlt
    by_cases heq : r' * nc + c' = r * nc + c
    · obtain ⟨e1, e2⟩ := cell_inj nc r' c' r c hc0 hc1 hc hc' heq
      have hk : (r * nc + c).toNat < l.length := by omega
      rw [heq, e1, e2, hv]
      simp [hk]
    · have hk : (r * nc + c).toNat ≠ (r' * nc + c').toNat := by
        have := mul_nonneg hr0 (show (0 : Int) ≤ nc by omega)
        omega
      rw [List.getElem?_set_ne hk]
      exact hfill r' c' hr0 hc0 hc1 (by omega)

/-- A run of `nv[idx++] = initval` over the columns `c0..nc` of row `r`. -/
theorem fill_cols (nr nc : Int) (E : Int → Int → α) (hmax : nr * nc ≤ INT_MAX)
    (r : Int) (hr : 0 ≤ r) (hr' : r < nr) (c0 : Int) (hc0 : 0 ≤ c0) (hc0' : c0 ≤ nc) (fill : α)
    (hE : ∀ c, c0 ≤ c → c < nc → E r c = fill)
    (s : Copy α) (hs : CopyInv (nr * nc) nc E (r * nc + c0) s) :
    ∃ s', forLoop c0 nc (fun _ s => push fill s) s = .ok s' ∧
      CopyInv (nr * nc) nc E ((r + 1) * nc) s' := by
  obtain ⟨s', h1, h2⟩ := forLoop_inv c0 nc (fun _ s => push fill s)
    (fun c s => CopyInv (nr * nc) nc E (r * nc + c) s) hc0'
    (fun c s hlo hhi hP =>
      push_step nr nc E hmax r c hr hr' (by omega) hhi fill (hE c hlo hhi).symm s hP)
    s hs
  refine ⟨s', h1, ?_⟩
  have : (r + 1) * nc = r * nc + nc := by ring
  rw [this]; exact h2

/-- The copy of the first `ccopy` cells of row `r` from a well-formed table. -/
theorem copy_cols (t : Table2 α) (hinv : StoreInv t) (hrep : Representable t) (fill : α)
    (nr nc : Int) (hmax : nr * nc ≤ INT_MAX) (r : Int) (hr : 0 ≤ r) (hr' : r < nr)
    (hrt : r < t.rows) (ccopy : Int) (hcc : 0 ≤ ccopy) (hcn : ccopy ≤ nc)
    (hct : ccopy ≤ t.columns)
    (s : Copy α) (hs : CopyInv (nr * nc) nc (expected t fill) (r * nc) s) :
    ∃ s', forLoop 0 ccopy (fun c s => copyCell t r c s) s = .ok s' ∧
      CopyInv (nr * nc) nc (expected t fill) (r * nc + ccopy) s' := by
  refine forLoop_inv 0 ccopy (fun c s => copyCell t r c s)
    (fun c s => CopyInv (nr * nc) nc (expected t fill) (r * nc + c) s) hcc
    (fun c s hlo hhi hP => ?_) s (by simpa using hs)
  obtain ⟨v, hv, hget⟩ := t2_get_in_bounds t hinv hrep r c hr hrt hlo (by omega) s.val
  have hE : v = expected t fill r c := by
    have : r < t.rows ∧ c < t.columns := ⟨hrt, by omega⟩
    simp [expected, this, hv]
  have hP' : CopyInv (nr * nc) nc (expected t fill) (r * nc + c) { s with val := v } := hP
  obtain ⟨s', hp, hinv'⟩ :=
    push_step nr nc (expected t fill) hmax r c hr hr' hlo (by omega) v hE _ hP'
  refine ⟨s', ?_, hinv'⟩
  simp only [copyCell, hget, Option.getD_some, ne_eq, not_true_eq_false, if_false]
  exact hp

/-- Resizing a well-formed table to positive dimensions whose product fits an
`int` returns OK and installs a store of `nr * nc` cells holding the expected
values. -/
theorem t2_resize_pos (junk : Nat → α) (t : Table2 α) (hinv : StoreInv t)
    (hrep : Representable t) (nr nc : Int) (hnr : 0 < nr) (hnc : 0 < nc)
    (hmax : nr * nc ≤ INT_MAX) (fill : α) :
    ∃ l, t2_resize junk (some t) nr nc fill =
        .ok (T2_OK, some { values := some l, columns := nc, rows := nr }) ∧
      (l.length : Int) = nr * nc ∧ Filled nc (expected t fill) l (nr * nc) := by
  have hprod : 0 < nr * nc := mul_pos hnr hnc
  have hneg : ¬ (nr < 0 ∨ nc < 0) := by omega
  have hw : wrapInt (nr * nc) = nr * nc :=
    wrapInt_eq _ (le_trans (by decide) (le_of_lt hprod)) hmax
  have hne : nr * nc ≠ 0 := by omega
  obtain ⟨cells, hm, hl⟩ := malloc_floats_pos junk (nr * nc) hprod
  obtain ⟨hrows, hcols, _, _⟩ := hinv
  -- the overlap region
  generalize hrc : (if nr < t.rows then nr else t.rows) = rcopy
  generalize hcc : (if nc < t.columns then nc else t.columns) = ccopy
  have hr1 : 0 ≤ rcopy ∧ rcopy ≤ nr ∧ rcopy ≤ t.rows ∧ (rcopy = nr ∨ rcopy = t.rows) := by
    split at hrc <;> omega
  have hc1 : 0 ≤ ccopy ∧ ccopy ≤ nc ∧ ccopy ≤ t.columns ∧ (ccopy = nc ∨ ccopy = t.columns) := by
    split at hcc <;> omega
  have hs0 : CopyInv (nr * nc) nc (expected t fill) (0 * nc)
      ({ nv := some cells, idx := 0, val := junk 0 } : Copy α) := by
    refine ⟨by simp, cells, rfl, hl, ?_⟩
    intro r c hr hc _ hlt
    have := mul_nonneg hr (le_of_lt hnc)
    omega
  -- rows 0 .. rcopy
  obtain ⟨s1, hA, hs1⟩ := forLoop_inv 0 rcopy (fun r s => copyRow t nc ccopy fill r s)
    (fun r s => CopyInv (nr * nc) nc (expected t fill) (r * nc) s) hr1.1
    (fun r s hlo hhi hP => by
      obtain ⟨sa, ha, hPa⟩ := copy_cols t ⟨hrows, hcols, ‹_›, ‹_›⟩ hrep fill nr nc hmax r hlo
        (by omega) (by omega) ccopy hc1.1 hc1.2.1 hc1.2.2.1 s hP
      obtain ⟨sb, hb, hPb⟩ := fill_cols nr nc (expected t fill) hmax r hlo (by omega) ccopy
        hc1.1 hc1.2.1 fill
        (fun c hc hc' => by
          have : ¬ (r < t.rows ∧ c < t.columns) := by omega
          simp [expected, this])
        sa hPa
      exact ⟨sb, by simp only [copyRow, ha, hb], hPb⟩)
    _ hs0
  -- rows rcopy .. nr
  obtain ⟨s2, hB, hs2⟩ := forLoop_inv rcopy nr (fun _ s => fillRow nc fill s)
    (fun r s => CopyInv (nr * nc) nc (expected t fill) (r * nc) s) hr1.2.1
    (fun r s hlo hhi hP => by
      have h0 : 0 ≤ r := by omega
      exact fill_cols nr nc (expected t fill) hmax r h0 hhi 0 (le_refl _) (le_of_lt hnc) fill
        (fun c hc hc' => by
          have : ¬ (r < t.rows ∧ c < t.columns) := by omega
          simp [expected, this])
        s (by simpa using hP))
    s1 hs1
  obtain ⟨_, l, hnv, hlen, hfill⟩ := hs2
  refine ⟨l, ?_, hlen, hfill⟩
  simp only [t2_resize, hneg, if_false, hw, hne, hm, hrc, hcc, hA, hB, hnv]

/-- Resizing a 2 x 2147483647 table to 2 x 2 stops at the copy of cell `(1, 1)`,
whatever the store holds: the offset `2147483647 + 1` wraps to `-2^31`. -/
theorem wide_resize_faults (junk : Nat → α) (cells : List α) (a b c : α) (fill : α)
    (h0 : cells[0]? = some a) (h1 : cells[1]? = some b) (h2 : cells[2147483647]? = some c) :
    t2_resize junk (some { values := some cells, columns := 2147483647, rows := 2 }) 2 2 fill =
      .error .memory := by
  simp [t2_resize, forLoop, forLoopAux, copyRow, copyCell, t2_get, load, push,
    store, malloc_floats, wrapInt, h0, h1, h2, T2_OK]

/-- C2 (as stated, refuted): (a) resizing the populated 1 x 1 table `unitTable`
to 65536 x 65536 (product `2^32 > 0`) returns OK, but the product wraps to 0, the
table is cleared, and `t2_get` at the overlap cell `(0, 0)` then fails with
OutOfRange instead of yielding the old value; (b) the populated table `wideTable`
(2 x 2147483647, store length `rows * columns`) cannot be resized to 2 x 2: the
copy of cell `(1, 1)` computes the offset `2147483647 + 1`, which wraps, and the
read falls outside the store, so no OK is returned. -/
theorem c2_resize_overflow :
    (StoreInv unitTable ∧ (0 : Int) < unitTable.rows * unitTable.columns ∧
      (0 : Int) < 65536 * 65536 ∧
      t2_resize (fun _ => 0) (some unitTable) 65536 65536 9 =
        .ok (T2_OK, some { values := none, columns := 0, rows := 0 }) ∧
      t2_get (some { values := none, columns := 0, rows := 0 }) 0 0 (some (0 : Nat)) =
        .ok (T2_ERR_OUT_OF_RANGE, some 0) ∧
      t2_get (some unitTable) 0 0 (some 0) = .ok (T2_OK, some 5)) ∧
    (StoreInv wideTable ∧ (0 : Int) < wideTable.rows * wideTable.columns ∧
      t2_resize (fun _ => 0) (some wideTable) 2 2 9 = .error .memory) := by
  refine ⟨by decide, ⟨by decide, by decide, ?_, ?_⟩, by decide, ?_⟩
  · show ((List.replicate (2 * 2147483647) 0).length : Int) = 2 * 2147483647
    rw [List.length_replicate]; rfl
  · intro h; exact absurd h (by decide)
  · exact wide_resize_faults (fun _ => 0) _ 0 0 0 9
      (by rw [List.getElem?_replicate]; rfl) (by rw [List.getElem?_replicate]; rfl)
      (by rw [List.getElem?_replicate]; rfl)

/-- C2 (amended): for a populated `R x C` table satisfying the store-length
invariant with `R * C` fitting an `int`, and `R2`, `C2` with
`0 < R2 * C2 <= INT_MAX`: when `R2 >= 0`, `t2_resize(t, R2, C2, fill)` returns
OK; and whenever it returns OK, `t2_get` on the resized table yields the
pre-resize value at every `(r, c)` with `r < min(R, R2)`, `c < min(C, C2)` and
yields `fill` at every other cell with `r < R2`, `c < C2`. -/
theorem c2_resize_overlap (junk : Nat → α) (t : Table2 α) (hinv : StoreInv t)
    (_hpop : 0 < t.rows * t.columns) (hrep : Representable t) (R2 C2 : Int)
    (hpos : 0 < R2 * C2) (hmax : R2 * C2 ≤ INT_MAX) (fill : α) :
    (0 ≤ R2 → ∃ t', t2_resize junk (some t) R2 C2 fill = .ok (T2_OK, some t')) ∧
    (∀ t', t2_resize junk (some t) R2 C2 fill = .ok (T2_OK, t') →
      (∀ r c, 0 ≤ r → r < min t.rows R2 → 0 ≤ c → c < min t.columns C2 → ∀ d,
        ∃ v, t2_get (some t) r c (some d) = .ok (T2_OK, some v) ∧
          t2_get t' r c (some d) = .ok (T2_OK, some v)) ∧
      (∀ r c, 0 ≤ r → r < R2 → 0 ≤ c → c < C2 →
        ¬ (r < min t.rows R2 ∧ c < min t.columns C2) → ∀ d,
        t2_get t' r c (some d) = .ok (T2_OK, some fill))) := by
  by_cases hR : 0 ≤ R2
  · have hR2 : 0 < R2 := by
      rcases eq_or_lt_of_le hR with h | h
      · rw [← h] at hpos; simp at hpos
      · exact h
    have hC2 : 0 < C2 := by
      by_contra hc
      have : R2 * C2 ≤ 0 := mul_nonpos_of_nonneg_of_nonpos hR (by omega)
      omega
    obtain ⟨l, hres, hlen, hfill⟩ := t2_resize_pos junk t hinv hrep R2 C2 hR2 hC2 hmax fill
    have hinv' : StoreInv ({ values := some l, columns := C2, rows := R2 } : Table2 α) :=
      ⟨hR, le_of_lt hC2, by simpa [storeLen] using hlen, fun h => by simp at h; omega⟩
    have hrep' : Representable ({ values := some l, columns := C2, rows := R2 } : Table2 α) := hmax
    have key : ∀ r c, 0 ≤ r → r < R2 → 0 ≤ c → c < C2 → ∀ d,
        t2_get (some { values := some l, columns := C2, rows := R2 }) r c (some d) =
          .ok (T2_OK, some (expected t fill r c)) := by
      intro r c hr hr' hc hc' d
      obtain ⟨w, hw, hget⟩ := t2_get_in_bounds _ hinv' hrep' r c hr hr' hc hc' d
      have h1 := (cell_bound R2 C2 r c hr hr' hc hc').2
      have := hfill r c hr hc hc' h1
      simp only [cellAt, Option.getD_some] at hw
      rw [hget, ← hw, this]
    refine ⟨fun _ => ⟨_, hres⟩, ?_⟩
    intro t' ht'
    rw [hres] at ht'
    simp only [Except.ok.injEq, Prod.mk.injEq, true_and] at ht'
    subst ht'
    constructor
    · intro r c hr hr' hc hc' d
      have hrt : r < t.rows := lt_of_lt_of_le hr' (min_le_left _ _)
      have hrn : r < R2 := lt_of_lt_of_le hr' (min_le_right _ _)
      have hct : c < t.columns := lt_of_lt_of_le hc' (min_le_left _ _)
      have hcn : c < C2 := lt_of_lt_of_le hc' (min_le_right _ _)
      obtain ⟨v, hv, hget⟩ := t2_get_in_bounds t hinv hrep r c hr hrt hc hct d
      refine ⟨v, hget, ?_⟩
      rw [key r c hr hrn hc hcn d]
      have : r < t.rows ∧ c < t.columns := ⟨hrt, hct⟩
      simp [expected, this, hv]
    · intro r c hr hr' hc hc' hout d
      rw [key r c hr hr' hc hc' d]
      have : ¬ (r < t.rows ∧ c < t.columns) := by
        intro h
        exact hout ⟨lt_min h.1 hr', lt_min h.2 hc'⟩
      simp [expected, this]
  · have hneg : R2 < 0 ∨ C2 < 0 := Or.inl (by omega)
    refine ⟨fun h => absurd h hR, ?_⟩
    intro t' ht'
    simp [t2_resize, hneg, T2_ERR_INVALID_SIZE, T2_OK] at ht'

theorem c2_resize_overlap_witness :
    (0 ≤ (3 : Int) → ∃ t', t2_resize (fun _ => 0) (some unitTable) 3 2 9 = .ok (T2_OK, some t')) ∧
    (∀ t', t2_resize (fun _ => 0) (some unitTable) 3 2 9 = .ok (T2_OK, t') →
      (∀ r c, 0 ≤ r → r < min unitTable.rows 3 → 0 ≤ c → c < min unitTable.columns 2 → ∀ d,
        ∃ v, t2_get (some unitTable) r c (some d) = .ok (T2_OK, some v) ∧
          t2_get t' r c (some d) = .ok (T2_OK, some v)) ∧
      (∀ r c, 0 ≤ r → r < 3 → 0 ≤ c → c < 2 →
        ¬ (r < min unitTable.rows 3 ∧ c < min unitTable.columns 2) → ∀ d,
        t2_get t' r c (some d) = .ok (T2_OK, some 9))) :=
  c2_resize_overlap (fun _ => 0) unitTable (by decide) (by decide) (by decide) 3 2
    (by decide) (by decide) 9

/-! ## Return codes of the loops -/

/-- A stop of a counting loop is a stop of one of its body runs. -/
theorem forLoopAux_error {ε σ : Type} (body : Int → σ → Except ε σ) (Q : ε → Prop)
    (hbody : ∀ i s e, body i s = .error e → Q e) :
    ∀ (n : Nat) (i : Int) (s : σ) (e : ε), forLoopAux body n i s = .error e → Q e := by
  intro n
  induction n with
  | zero => intro i s e h; simp [forLoopAux] at h
  | succ n ih =>
    intro i s e h
    simp only [forLoopAux] at h
    cases hb : body i s with
    | error e' =>
      rw [hb] at h
      simp only [Except.error.injEq] at h
      subst h
      exact hbody i s e' hb
    | ok s' =>
      rw [hb] at h
      exact ih (i + 1) s' e h

theorem forLoop_error {ε σ : Type} (lo hi : Int) (body : Int → σ → Except ε σ) (Q : ε → Prop)
    (hbody : ∀ i s e, body i s = .error e → Q e) (s : σ) (e : ε)
    (h : forLoop lo hi body s = .error e) : Q e :=
  forLoopAux_error body Q hbody _ _ s e h

/-- The return code of `t2_get` with a present table is OK or OutOfRange. -/
theorem t2_get_code (t : Table2 α) (r c : Int) (ret : Option α) (code : Int) (ret' : Option α)
    (h : t2_get (some t) r c ret = .ok (code, ret')) :
    code = T2_OK ∨ code = T2_ERR_OUT_OF_RANGE ∨ code = T2_ERR_NULL_POINTER := by
  cases ret with
  | none =>
    simp only [t2_get, Except.ok.injEq, Prod.mk.injEq] at h
    exact Or.inr (Or.inr h.1.symm)
  | some d =>
    by_cases hb : r < 0 ∨ r ≥ t.rows ∨ c < 0 ∨ c ≥ t.columns
    · simp only [t2_get, hb, if_true, Except.ok.injEq, Prod.mk.injEq] at h
      exact Or.inr (Or.inl h.1.symm)
    · simp only [t2_get, hb, if_false] at h
      cases hl : load t.values (wrapInt (wrapInt (r * t.columns) + c)) with
      | error e => rw [hl] at h; simp at h
      | ok v =>
        rw [hl] at h
        simp only [Except.ok.injEq, Prod.mk.injEq] at h
        exact Or.inl h.1.symm

theorem push_error (v : α) (s : Copy α) (e : Stop) (h : push v s = .error e) : e = .fault := by
  unfold push at h
  split at h
  · simp only [Except.error.injEq] at h; exact h.symm
  · simp at h

theorem copyCell_error (t : Table2 α) (r c : Int) (s : Copy α) (e : Stop)
    (h : copyCell t r c s = .error e) : e ≠ .ret T2_ERR_INVALID_SIZE := by
  unfold copyCell at h
  split at h
  · simp only [Except.error.injEq] at h; subst h; simp
  · rename_i retcode ret hget
    have hcode := t2_get_code t r c _ retcode ret hget
    split at h
    · simp only [Except.error.injEq] at h; subst h
      simp only [ne_eq, Stop.ret.injEq]
      rcases hcode with h1 | h1 | h1 <;> rw [h1] <;> decide
    · rw [push_error _ _ e h]; simp

theorem copyRow_error (t : Table2 α) (nc ccopy : Int) (fill : α) (r : Int) (s : Copy α)
    (e : Stop) (h : copyRow t nc ccopy fill r s = .error e) : e ≠ .ret T2_ERR_INVALID_SIZE := by
  unfold copyRow at h
  split at h
  · rename_i e' hl
    simp only [Except.error.injEq] at h; subst h
    exact forLoop_error 0 ccopy _ (fun e => e ≠ .ret T2_ERR_INVALID_SIZE)
      (fun c s e he => copyCell_error t r c s e he) s _ hl
  · exact forLoop_error ccopy nc _ (fun e => e ≠ .ret T2_ERR_INVALID_SIZE)
      (fun _ s e he => by rw [push_error _ s e he]; simp) _ e h

theorem fillRow_error (nc : Int) (fill : α) (s : Copy α) (e : Stop)
    (h : fillRow nc fill s = .error e) : e ≠ .ret T2_ERR_INVALID_SIZE :=
  forLoop_error 0 nc _ (fun e => e ≠ .ret T2_ERR_INVALID_SIZE)
    (fun _ s e he => by rw [push_error _ s e he]; simp) s e h

/-- With non-negative sizes `t2_resize` never returns InvalidSize. -/
theorem t2_resize_code (junk : Nat → α) (t : Table2 α) (nr nc : Int) (fill : α)
    (hnn : ¬ (nr < 0 ∨ nc < 0)) (t' : Option (Table2 α)) :
    t2_resize junk (some t) nr nc fill ≠ .ok (T2_ERR_INVALID_SIZE, t') := by
  intro h
  simp only [t2_resize, hnn, if_false] at h
  split at h
  · simp [T2_OK, T2_ERR_INVALID_SIZE] at h
  · split at h
    · simp at h
    · rename_i retcode hl
      have := forLoop_error _ _ _ (fun e => e ≠ .ret T2_ERR_INVALID_SIZE)
        (fun r s e he => copyRow_error t nc _ fill r s e he) _ _ hl
      simp only [Except.ok.injEq, Prod.mk.injEq] at h
      exact this (by rw [h.1])
    · split at h
      · simp at h
      · rename_i retcode hl
        have := forLoop_error _ _ _ (fun e => e ≠ .ret T2_ERR_INVALID_SIZE)
          (fun _ s e he => fillRow_error nc fill s e he) _ _ hl
        simp only [Except.ok.injEq, Prod.mk.injEq] at h
        exact this (by rw [h.1])
      · simp [T2_OK, T2_ERR_INVALID_SIZE] at h

/-- C6: for every present table, sizes and fill value, `t2_resize` returns
InvalidSize (code 3) exactly when `newRows < 0` or `newColumns < 0`, and then the
table (rows, columns, every stored element) is what it was before the call. -/
theorem c6_resize_invalid_size (junk : Nat → α) (t : Table2 α) (nr nc : Int) (fill : α) :
    ((∃ t', t2_resize junk (some t) nr nc fill = .ok (T2_ERR_INVALID_SIZE, t')) ↔
        (nr < 0 ∨ nc < 0)) ∧
      (∀ t', t2_resize junk (some t) nr nc fill = .ok (T2_ERR_INVALID_SIZE, t') → t' = some t) ∧
      T2_ERR_INVALID_SIZE = 3 := by
  by_cases hneg : nr < 0 ∨ nc < 0
  · have hres : t2_resize junk (some t) nr nc fill = .ok (T2_ERR_INVALID_SIZE, some t) := by
      simp [t2_resize, hneg]
    refine ⟨⟨fun _ => hneg, fun _ => ⟨_, hres⟩⟩, ?_, rfl⟩
    intro t' ht'
    rw [hres] at ht'
    simp only [Except.ok.injEq, Prod.mk.injEq, true_and] at ht'
    exact ht'.symm
  · refine ⟨⟨fun ⟨t', ht'⟩ => absurd ht' (t2_resize_code junk t nr nc fill hneg t'),
      fun h => absurd h hneg⟩, ?_, rfl⟩
    intro t' ht'
    exact absurd ht' (t2_resize_code junk t nr nc fill hneg t')

theorem t2_clear_eq (t : Table2 α) : t2_clear (some t) = (T2_OK, some emptyTable) := by
  cases hv : t.values <;> simp [t2_clear, emptyTable, hv]

theorem emptyTable_inv : StoreInv (emptyTable : Table2 α) ∧ Representable (emptyTable : Table2 α) := by
  refine ⟨⟨le_refl _, le_refl _, ?_, ?_⟩, ?_⟩
  · simp [emptyTable, storeLen]
  · simp [emptyTable]
  · simp [Representable, emptyTable, INT_MAX]

/-- C7: for every present table, every `k >= 0` and every fill value,
`t2_resize` to `(0, k)` and to `(k, 0)` returns OK and leaves exactly the state
`t2_clear` leaves, which is rows = 0, columns = 0 and no store; every later
`t2_get`, at any `(r, c)`, fails with OutOfRange. -/
theorem c7_resize_zero_is_clear (junk : Nat → α) (t : Table2 α) (k : Int) (hk : 0 ≤ k)
    (fill : α) :
    t2_resize junk (some t) 0 k fill = .ok (T2_OK, (t2_clear (some t)).2) ∧
      t2_resize junk (some t) k 0 fill = .ok (T2_OK, (t2_clear (some t)).2) ∧
      t2_clear (some t) = (T2_OK, some { values := none, columns := 0, rows := 0 }) ∧
      ∀ r c d, t2_get (some ({ values := none, columns := 0, rows := 0 } : Table2 α)) r c (some d) =
        .ok (T2_ERR_OUT_OF_RANGE, some d) := by
  have hneg : ¬ ((0 : Int) < 0 ∨ k < 0) := by omega
  have hneg' : ¬ (k < 0 ∨ (0 : Int) < 0) := by omega
  have hw : wrapInt 0 = 0 := by decide
  refine ⟨?_, ?_, t2_clear_eq t, ?_⟩
  · simp only [t2_resize, hneg, if_false, zero_mul, hw, if_true]
  · simp only [t2_resize, hneg', if_false, mul_zero, hw, if_true]
  · intro r c d
    have : r < 0 ∨ r ≥ 0 ∨ c < 0 ∨ c ≥ 0 := by omega
    simp [t2_get, this]

theorem c7_resize_zero_is_clear_witness :
    t2_resize (fun _ => 0) (some unitTable) 0 3 9 = .ok (T2_OK, (t2_clear (some unitTable)).2) ∧
      t2_resize (fun _ => 0) (some unitTable) 3 0 9 = .ok (T2_OK, (t2_clear (some unitTable)).2) ∧
      t2_clear (some unitTable) = (T2_OK, some { values := none, columns := 0, rows := 0 }) ∧
      ∀ r c d, t2_get (some ({ values := none, columns := 0, rows := 0 } : Table2 Nat)) r c (some d) =
        .ok (T2_ERR_OUT_OF_RANGE, some d) :=
  c7_resize_zero_is_clear (fun _ => 0) unitTable 3 (by decide) 9

/-- C8: for every present table `t2_clear` returns OK and leaves rows = 0,
columns = 0 and no store; a second `t2_clear` on the result again returns OK and
leaves the identical state. -/
theorem c8_clear_idempotent (t : Table2 α) :
    t2_clear (some t) = (T2_OK, some { values := none, columns := 0, rows := 0 }) ∧
      t2_clear (t2_clear (some t)).2 = (T2_OK, some { values := none, columns := 0, rows := 0 }) ∧
      t2_clear (t2_clear (some t)).2 = t2_clear (some t) := by
  have h := t2_clear_eq t
  refine ⟨h, ?_, ?_⟩
  · rw [h]; exact t2_clear_eq emptyTable
  · rw [h]; exact t2_clear_eq emptyTable

/-- C9 (as stated, refuted): `t2_new(65536, 65536, 7)` has non-negative dimensions
and returns a table that reports 65536 x 65536 with no store, so its store length
0 is not `rows * columns`; `t2_resize` of the well-formed 1 x 1 table `unitTable`
to 46341 x 46341 neither succeeds nor fails: the product wraps to a negative
`int`, no block is obtained, and the first write goes through NULL; and `t2_set`
at the in-bounds cell `(32768, 0)` of `hugeTable`, which satisfies the predicate,
neither succeeds nor fails either. -/
theorem c9_overflow_breaks_store_length :
    (t2_new (fun _ => (0 : Nat)) 65536 65536 7 =
        .ok (some { values := none, columns := 65536, rows := 65536 }) ∧
      ¬ StoreInv ({ values := none, columns := 65536, rows := 65536 } : Table2 Nat)) ∧
    (StoreInv unitTable ∧
      t2_resize (fun _ => 0) (some unitTable) 46341 46341 9 = .error .memory) ∧
    (StoreInv hugeTable ∧ t2_set (some hugeTable) 32768 0 1 = .error .memory) :=
  ⟨by decide, by decide, hugeTable_inv, hugeTable_set_faults⟩

/-- C9 (amended): the predicate `rows >= 0`, `columns >= 0`, store length
`= rows * columns`, store empty or absent for a zero product, together with
`rows * columns <= INT_MAX`, holds for every table `t2_new` returns for
non-negative dimensions whose product is at most `INT_MAX`, and every call of
`t2_clear`, `t2_set`, `t2_get` and of `t2_resize` with `newRows * newColumns` at
most `INT_MAX` on a table satisfying it returns, successfully or with an error
code, leaving a table that satisfies it; a `t2_resize` with non-negative sizes
returns OK and installs a store of exactly `newRows * newColumns` elements. -/
theorem c9_invariant (junk : Nat → α) :
    (∀ nr nc x, 0 ≤ nr → 0 ≤ nc → nr * nc ≤ INT_MAX →
      ∃ t, t2_new junk nr nc x = .ok (some t) ∧ StoreInv t ∧ Representable t) ∧
    (∀ t : Table2 α, StoreInv t ∧ Representable t →
      (∃ t', t2_clear (some t) = (T2_OK, some t') ∧ StoreInv t' ∧ Representable t') ∧
      (∀ r c v, ∃ code t', t2_set (some t) r c v = .ok (code, some t') ∧
        StoreInv t' ∧ Representable t') ∧
      (∀ r c d, ∃ code d', t2_get (some t) r c (some d) = .ok (code, d')) ∧
      (∀ nr nc fill, nr * nc ≤ INT_MAX →
        ∃ code t', t2_resize junk (some t) nr nc fill = .ok (code, some t') ∧
          StoreInv t' ∧ Representable t' ∧
          (0 ≤ nr → 0 ≤ nc → code = T2_OK ∧ storeLen t'.values = nr * nc))) := by
  constructor
  · intro nr nc x hnr hnc hmax
    refine ⟨_, t2_new_eq junk nr nc x hnr hnc hmax, ⟨hnr, hnc, ?_, ?_⟩, hmax⟩
    · by_cases h0 : nr * nc = 0
      · simp [h0, storeLen]
      · have := mul_nonneg hnr hnc
        simp only [h0, if_false, storeLen, List.length_replicate]
        omega
    · intro h0
      simp at h0
      simp [h0]
  · intro t ⟨hinv, hrep⟩
    refine ⟨⟨_, t2_clear_eq t, emptyTable_inv.1, emptyTable_inv.2⟩, ?_, ?_, ?_⟩
    · intro r c v
      by_cases hb : r < 0 ∨ r ≥ t.rows ∨ c < 0 ∨ c ≥ t.columns
      · exact ⟨T2_ERR_OUT_OF_RANGE, t, by simp [t2_set, hb], hinv, hrep⟩
      · obtain ⟨cells, hcells, _, hset⟩ :=
          t2_set_in_bounds t hinv hrep r c (by omega) (by omega) (by omega) (by omega) v
        exact ⟨_, _, hset, storeInv_set t cells _ v hinv hcells, hrep⟩
    · intro r c d
      by_cases hb : r < 0 ∨ r ≥ t.rows ∨ c < 0 ∨ c ≥ t.columns
      · exact ⟨T2_ERR_OUT_OF_RANGE, some d, by simp [t2_get, hb]⟩
      · obtain ⟨v, _, hget⟩ :=
          t2_get_in_bounds t hinv hrep r c (by omega) (by omega) (by omega) (by omega) d
        exact ⟨_, _, hget⟩
    · intro nr nc fill hmax
      by_cases hneg : nr < 0 ∨ nc < 0
      · exact ⟨T2_ERR_INVALID_SIZE, t, by simp [t2_resize, hneg], hinv, hrep,
          fun h1 h2 => by omega⟩
      · by_cases h0 : nr * nc = 0
        · have hw : wrapInt 0 = 0 := by decide
          refine ⟨T2_OK, emptyTable, ?_, emptyTable_inv.1, emptyTable_inv.2, fun _ _ => ⟨rfl, ?_⟩⟩
          · simp only [t2_resize, hneg, if_false, h0, hw, if_true, t2_clear_eq]
          · simp [emptyTable, storeLen, h0]
        · have hnr : 0 < nr := by
            rcases lt_or_eq_of_le (show 0 ≤ nr by omega) with h | h
            · exact h
            · rw [← h] at h0; simp at h0
          have hnc : 0 < nc := by
            rcases lt_or_eq_of_le (show 0 ≤ nc by omega) with h | h
            · exact h
            · rw [← h] at h0; simp at h0
          obtain ⟨l, hres, hlen, _⟩ := t2_resize_pos junk t hinv hrep nr nc hnr hnc hmax fill
          refine ⟨_, _, hres, ⟨le_of_lt hnr, le_of_lt hnc, by simpa [storeLen] using hlen,
            fun h => absurd h h0⟩, hmax, fun _ _ => ⟨rfl, by simpa [storeLen] using hlen⟩⟩

theorem c9_invariant_witness :
    ∃ t, t2_new (fun _ => (0 : Nat)) 2 3 7 = .ok (some t) ∧ StoreInv t ∧ Representable t :=
  (c9_invariant (fun _ => (0 : Nat))).1 2 3 7 (by decide) (by decide) (by decide)

theorem main_init_eq (lit : Nat → α) (fadd : α → α → α)
    (hadd : ∀ k : Nat, 1 ≤ k → k < 8 → fadd (lit k) (lit 1) = lit (k + 1)) (z : α) :
    main_init (lit 1) fadd { values := some (List.replicate 8 z), columns := 2, rows := 4 } =
      .ok { t := { values := some [lit 1, lit 2, lit 3, lit 4, lit 5, lit 6, lit 7, lit 8],
                   columns := 2, rows := 4 },
            val := fadd (lit 8) (lit 1),
            codes := [T2_OK, T2_OK, T2_OK, T2_OK, T2_OK, T2_OK, T2_OK, T2_OK] } := by
  have h1 := hadd 1 (by decide) (by decide)
  have h2 := hadd 2 (by decide) (by decide)
  have h3 := hadd 3 (by decide) (by decide)
  have h4 := hadd 4 (by decide) (by decide)
  have h5 := hadd 5 (by decide) (by decide)
  have h6 := hadd 6 (by decide) (by decide)
  have h7 := hadd 7 (by decide) (by decide)
  simp only [Nat.reduceAdd] at h1 h2 h3 h4 h5 h6 h7
  simp [main_init, forLoop, forLoopAux, t2_set, store, wrapInt, h1, h2, h3, h4, h5, h6, h7,
    List.replicate]

/-- After a resize to positive dimensions whose product fits an `int`, the table
reports the new dimensions and `t2_get` yields the expected value at every
in-bounds cell. -/
theorem t2_resize_get (junk : Nat → α) (t : Table2 α) (hinv : StoreInv t)
    (hrep : Representable t) (nr nc : Int) (hnr : 0 < nr) (hnc : 0 < nc)
    (hmax : nr * nc ≤ INT_MAX) (fill : α) :
    ∃ t', t2_resize junk (some t) nr nc fill = .ok (T2_OK, some t') ∧
      t'.rows = nr ∧ t'.columns = nc ∧
      ∀ r c, 0 ≤ r → r < nr → 0 ≤ c → c < nc → ∀ d,
        t2_get (some t') r c (some d) = .ok (T2_OK, some (expected t fill r c)) := by
  obtain ⟨l, hres, hlen, hfill⟩ := t2_resize_pos junk t hinv hrep nr nc hnr hnc hmax fill
  have hinv' : StoreInv ({ values := some l, columns := nc, rows := nr } : Table2 α) :=
    ⟨le_of_lt hnr, le_of_lt hnc, by simpa [storeLen] using hlen,
      fun h => by have := mul_pos hnr hnc; simp at h; omega⟩
  have hrep' : Representable ({ values := some l, columns := nc, rows := nr } : Table2 α) := hmax
  refine ⟨_, hres, rfl, rfl, ?_⟩
  intro r c hr hr' hc hc' d
  obtain ⟨w, hw, hget⟩ := t2_get_in_bounds _ hinv' hrep' r c hr hr' hc hc' d
  have h1 := (cell_bound nr nc r c hr hr' hc hc').2
  have := hfill r c hr hc hc' h1
  simp only [cellAt, Option.getD_some] at hw
  rw [hget, ← hw, this]

/-- C10: the scenario of `main`, for a float type in which `1.0f` added to the
floats `1.0 .. 7.0` gives the next integer value exactly (`lit k` is the float of
the integer `k`, `fill` the float `0.33f`): `t2_new(4, 2, 0.0f)` and the eight
`t2_set` calls of the row-major initialisation return a table and OK; then
`t2_get(0,0)` gives 1.0 and `t2_get(3,1)` gives 8.0; `t2_resize(12, 4, 0.33f)`
returns OK and the table then reports rows = 12, columns = 4, with
`t2_get(0,0)` = 1.0, `t2_get(0,2)` = 0.33 and `t2_get(5,0)` = 0.33, each get
returning OK. -/
theorem c10_main_scenario (junk : Nat → α) (lit : Nat → α) (fill : α) (fadd : α → α → α)
    (hadd : ∀ k : Nat, 1 ≤ k → k < 8 → fadd (lit k) (lit 1) = lit (k + 1)) :
    ∃ codes t1 t2, main_table junk (lit 0) (lit 1) fill fadd = .ok (codes, t1, T2_OK, some t2) ∧
      codes.length = 8 ∧ (∀ code ∈ codes, code = T2_OK) ∧
      (∀ d, t2_get (some t1) 0 0 (some d) = .ok (T2_OK, some (lit 1))) ∧
      (∀ d, t2_get (some t1) 3 1 (some d) = .ok (T2_OK, some (lit 8))) ∧
      t2.rows = 12 ∧ t2.columns = 4 ∧
      (∀ d, t2_get (some t2) 0 0 (some d) = .ok (T2_OK, some (lit 1))) ∧
      (∀ d, t2_get (some t2) 0 2 (some d) = .ok (T2_OK, some fill)) ∧
      (∀ d, t2_get (some t2) 5 0 (some d) = .ok (T2_OK, some fill)) := by
  have hnew : t2_new junk 4 2 (lit 0) =
      .ok (some { values := some (List.replicate 8 (lit 0)), columns := 2, rows := 4 }) := by
    rw [t2_new_eq junk 4 2 (lit 0) (by decide) (by decide) (by decide)]; rfl
  have hinit := main_init_eq lit fadd hadd (lit 0)
  obtain ⟨t2, hres, hrows, hcols, hget⟩ := t2_resize_get junk
    ({ values := some [lit 1, lit 2, lit 3, lit 4, lit 5, lit 6, lit 7, lit 8],
       columns := 2, rows := 4 } : Table2 α)
    ⟨by simp, by simp, by simp [storeLen], by simp⟩ (by simp [Representable, INT_MAX])
    12 4 (by decide) (by decide) (by decide) fill
  refine ⟨[T2_OK, T2_OK, T2_OK, T2_OK, T2_OK, T2_OK, T2_OK, T2_OK],
    { values := some [lit 1, lit 2, lit 3, lit 4, lit 5, lit 6, lit 7, lit 8],
      columns := 2, rows := 4 }, t2, ?_, ?_, ?_, ?_, ?_, hrows, hcols, ?_, ?_, ?_⟩
  · unfold main_table
    rw [hnew]; dsimp only
    rw [hinit]; dsimp only
    rw [hres]
  · rfl
  · intro code hc
    simpa using hc
  · intro d; simp [t2_get, load, wrapInt]
  · intro d; simp [t2_get, load, wrapInt]
  · intro d
    rw [hget 0 0 (by decide) (by decide) (by decide) (by decide) d]
    simp [expected, cellAt]
  · intro d
    rw [hget 0 2 (by decide) (by decide) (by decide) (by decide) d]
    simp [expected, cellAt]
  · intro d
    rw [hget 5 0 (by decide) (by decide) (by decide) (by decide) d]
    simp [expected, cellAt]

theorem c10_main_scenario_witness :
    ∃ codes t1 t2, main_table (fun _ => (0 : ℚ)) ((0 : Nat) : ℚ) ((1 : Nat) : ℚ) (33 / 100)
        (fun x y => x + y) = .ok (codes, t1, T2_OK, some t2) ∧
      codes.length = 8 ∧ (∀ code ∈ codes, code = T2_OK) ∧
      (∀ d, t2_get (some t1) 0 0 (some d) = .ok (T2_OK, some ((1 : Nat) : ℚ))) ∧
      (∀ d, t2_get (some t1) 3 1 (some d) = .ok (T2_OK, some ((8 : Nat) : ℚ))) ∧
      t2.rows = 12 ∧ t2.columns = 4 ∧
      (∀ d, t2_get (some t2) 0 0 (some d) = .ok (T2_OK, some ((1 : Nat) : ℚ))) ∧
      (∀ d, t2_get (some t2) 0 2 (some d) = .ok (T2_OK, some (33 / 100))) ∧
      (∀ d, t2_get (some t2) 5 0 (some d) = .ok (T2_OK, some (33 / 100))) :=
  c10_main_scenario (fun _ => (0 : ℚ)) (fun k => (k : ℚ)) (33 / 100) (fun x y => x + y)
    (fun k _ _ => by push_cast; rfl)


/-! ## Null pointers, release and error texts -/

/-- C11: with an absent table, `t2_clear`, `t2_get`, `t2_set`, `t2_resize` and
`t2_print` each return NullPointer (code 2) whatever the other arguments are;
`t2_get` also returns NullPointer for an absent destination, whatever the table
and the indices are. -/
theorem c11_null_pointer (junk : Nat → α) (fmt : α → String) :
    t2_clear (none : Option (Table2 α)) = (T2_ERR_NULL_POINTER, none) ∧
      (∀ (r c : Int) (ret : Option α),
        t2_get (none : Option (Table2 α)) r c ret = .ok (T2_ERR_NULL_POINTER, ret)) ∧
      (∀ (t : Option (Table2 α)) (r c : Int),
        t2_get t r c none = .ok (T2_ERR_NULL_POINTER, none)) ∧
      (∀ (r c : Int) (v : α),
        t2_set (none : Option (Table2 α)) r c v = .ok (T2_ERR_NULL_POINTER, none)) ∧
      (∀ (nr nc : Int) (fill : α),
        t2_resize junk none nr nc fill = .ok (T2_ERR_NULL_POINTER, none)) ∧
      t2_print junk fmt none = .ok (T2_ERR_NULL_POINTER, [], []) ∧
      T2_ERR_NULL_POINTER = 2 := by
  refine ⟨rfl, ?_, ?_, fun _ _ _ => rfl, fun _ _ _ => rfl, rfl, rfl⟩
  · intro r c ret
    cases ret <;> rfl
  · intro t r c
    rfl

/-- C12: `t2_free` on an absent handle returns NullPointer; on a present handle
that holds no table it returns the NullPointer of `t2_clear` and leaves the handle
as it is; on a present handle holding a table it returns OK and leaves NULL in the
handle. -/
theorem c12_free (t : Table2 α) :
    t2_free (none : Option (Option (Table2 α))) = (T2_ERR_NULL_POINTER, none) ∧
      t2_free (some (none : Option (Table2 α))) = (T2_ERR_NULL_POINTER, some none) ∧
      t2_free (some (some t)) = (T2_OK, some none) := by
  refine ⟨rfl, rfl, ?_⟩
  simp [t2_free, t2_clear_eq]

/-- C13: whenever `t2_set` on a present table returns a code other than OK, the
table it leaves is the table it was given: rows, columns and every stored element
are unchanged. -/
theorem c13_rejected_set (t : Table2 α) (r c : Int) (v : α) (code : Int)
    (t' : Option (Table2 α)) (h : t2_set (some t) r c v = .ok (code, t'))
    (hcode : code ≠ T2_OK) : t' = some t := by
  by_cases hb : r < 0 ∨ r ≥ t.rows ∨ c < 0 ∨ c ≥ t.columns
  · simp only [t2_set, hb, if_true, Except.ok.injEq, Prod.mk.injEq] at h
    exact h.2.symm
  · simp only [t2_set, hb, if_false] at h
    cases hs : store t.values (wrapInt (wrapInt (r * t.columns) + c)) v with
    | error e => rw [hs] at h; simp at h
    | ok p =>
      rw [hs] at h
      simp only [Except.ok.injEq, Prod.mk.injEq] at h
      exact absurd h.1.symm hcode

theorem c13_rejected_set_witness :
    t2_set (some squareTable) 2 0 9 = .ok (T2_ERR_OUT_OF_RANGE, some squareTable) ∧
      T2_ERR_OUT_OF_RANGE ≠ T2_OK ∧
      (some squareTable : Option (Table2 Nat)) = some squareTable :=
  ⟨by decide, by decide,
    c13_rejected_set squareTable 2 0 9 T2_ERR_OUT_OF_RANGE (some squareTable) (by decide)
      (by decide)⟩

/-- C15: `t2_errstr` maps 0, 1, 2, 3 to "No error", "Index out of range",
"Invalid pointers", "Invalid size", four different texts, maps every code that is
negative or at least 4 to "Unknown error", and never reads outside `sErrs`. -/
theorem c15_errstr :
    t2_errstr T2_OK = .ok "No error" ∧
      t2_errstr T2_ERR_OUT_OF_RANGE = .ok "Index out of range" ∧
      t2_errstr T2_ERR_NULL_POINTER = .ok "Invalid pointers" ∧
      t2_errstr T2_ERR_INVALID_SIZE = .ok "Invalid size" ∧
      (T2_OK = 0 ∧ T2_ERR_OUT_OF_RANGE = 1 ∧ T2_ERR_NULL_POINTER = 2 ∧
        T2_ERR_INVALID_SIZE = 3) ∧
      sErrs.Nodup ∧
      (∀ code : Int, code < 0 ∨ code ≥ 4 → t2_errstr code = .ok "Unknown error") ∧
      (∀ code : Int, ∃ text, t2_errstr code = .ok text) := by
  refine ⟨by decide, by decide, by decide, by decide, by decide, by decide, ?_, ?_⟩
  · intro code h
    have : code < 0 ∨ code ≥ T2_ERR_LAST := h
    simp [t2_errstr, this]
  · intro code
    by_cases h : code < 0 ∨ code ≥ T2_ERR_LAST
    · exact ⟨"Unknown error", by simp [t2_errstr, h]⟩
    · have h4 : T2_ERR_LAST = 4 := rfl
      rw [h4] at h
      have hc : code = 0 ∨ code = 1 ∨ code = 2 ∨ code = 3 := by omega
      rcases hc with rfl | rfl | rfl | rfl
      · exact ⟨_, (by decide : t2_errstr 0 = .ok "No error")⟩
      · exact ⟨_, (by decide : t2_errstr 1 = .ok "Index out of range")⟩
      · exact ⟨_, (by decide : t2_errstr 2 = .ok "Invalid pointers")⟩
      · exact ⟨_, (by decide : t2_errstr 3 = .ok "Invalid size")⟩

theorem c15_errstr_witness : t2_errstr 7 = .ok "Unknown error" :=
  c15_errstr.2.2.2.2.2.2.1 7 (by decide)

/-! ## Reads and offsets -/

theorem load_neg (p : Option (List α)) (idx : Int) (h : idx < 0) :
    load p idx = .error .memory := by
  cases p <;> simp [load, h]

/-- C14 (as stated, refuted): `hugeTable` satisfies the store-length invariant and
`(32768, 0)` is within its bounds, but `t2_get` there does not return OK: the
offset `32768 * 65536` wraps to `-2^31` and the read falls outside the store. -/
theorem c14_get_huge_table_faults :
    StoreInv hugeTable ∧ (0 : Int) ≤ 32768 ∧ (32768 : Int) < hugeTable.rows ∧
      (0 : Int) < hugeTable.columns ∧
      t2_get (some hugeTable) 32768 0 (some 0) = .error .memory := by
  refine ⟨hugeTable_inv, by decide, by decide, by decide, ?_⟩
  have hw : wrapInt (wrapInt (32768 * 65536) + 0) = -2147483648 := by decide
  have hnb : ¬ ((32768 : Int) < 0 ∨ (32768 : Int) ≥ 65536 ∨ (0 : Int) < 0 ∨ (0 : Int) ≥ 65536) := by
    decide
  have hcol : hugeTable.columns = 65536 := rfl
  have hrow : hugeTable.rows = 65536 := rfl
  have hl : load hugeTable.values (-2147483648) = .error .memory :=
    load_neg _ _ (by decide)
  simp only [t2_get, hcol, hrow, hnb, if_false, hw, hl]

/-- C14 (amended): on a table satisfying the store-length invariant whose element
count fits an `int`, `t2_get` at an in-bounds `(r, c)` returns OK and delivers
exactly the store element at linear offset `r * columns + c`.  (The embedding of
`t2_get` has no table result: the source function contains no assignment through
`t`, so rows, columns and the store are the same after the call.) -/
theorem c14_get_value (t : Table2 α) (hinv : StoreInv t) (hrep : Representable t)
    (r c : Int) (hr : 0 ≤ r ∧ r < t.rows) (hc : 0 ≤ c ∧ c < t.columns) (d : α) :
    ∃ cells v, t.values = some cells ∧ cells[(r * t.columns + c).toNat]? = some v ∧
      t2_get (some t) r c (some d) = .ok (T2_OK, some v) := by
  obtain ⟨v, hv, hget⟩ := t2_get_in_bounds t hinv hrep r c hr.1 hr.2 hc.1 hc.2 d
  obtain ⟨_, _, hlen, _⟩ := hinv
  obtain ⟨h0, h1⟩ := cell_bound t.rows t.columns r c hr.1 hr.2 hc.1 hc.2
  obtain ⟨cells, hcells, _⟩ := values_of_pos t (by omega)
  refine ⟨cells, v, hcells, ?_, hget⟩
  simpa [cellAt, hcells] using hv

theorem c14_get_value_witness :
    ∃ cells v, squareTable.values = some cells ∧
      cells[((1 : Int) * squareTable.columns + 0).toNat]? = some v ∧
      t2_get (some squareTable) 1 0 (some 0) = .ok (T2_OK, some v) :=
  c14_get_value squareTable (by decide) (by decide) 1 0 (by decide) (by decide) 0

/-- C16: on a table with `rows >= 0`, `columns >= 0`, store length
`rows * columns` and `rows * columns` representable as an `int`, for `(r, c)`
passing the bounds check: neither `r * columns` nor `(r * columns) + c` overflows,
the offset satisfies `0 <= r * columns + c < rows * columns`, the read of `t2_get`
and the write of `t2_set` at that offset are inside the store, and another
in-bounds pair has another offset. -/
theorem c16_index_safety (t : Table2 α) (hinv : StoreInv t) (hrep : Representable t)
    (r c : Int) (hr : 0 ≤ r ∧ r < t.rows) (hc : 0 ≤ c ∧ c < t.columns) :
    wrapInt (r * t.columns) = r * t.columns ∧
      wrapInt (wrapInt (r * t.columns) + c) = r * t.columns + c ∧
      0 ≤ r * t.columns + c ∧ r * t.columns + c < t.rows * t.columns ∧
      r * t.columns + c < storeLen t.values ∧
      (∃ v, load t.values (wrapInt (wrapInt (r * t.columns) + c)) = .ok v) ∧
      (∀ v, ∃ p, store t.values (wrapInt (wrapInt (r * t.columns) + c)) v = .ok p) ∧
      (∀ r' c', 0 ≤ r' → r' < t.rows → 0 ≤ c' → c' < t.columns → (r', c') ≠ (r, c) →
        wrapInt (wrapInt (r' * t.columns) + c') ≠ wrapInt (wrapInt (r * t.columns) + c)) := by
  obtain ⟨h0, h1⟩ := cell_bound t.rows t.columns r c hr.1 hr.2 hc.1 hc.2
  have hoff := offset_eq t.rows t.columns r c hr.1 hr.2 hc.1 hc.2 hrep
  have hlen := hinv.2.2.1
  obtain ⟨cells, hcells, hl⟩ := values_of_pos t (by omega)
  have hk : (r * t.columns + c).toNat < cells.length := by omega
  have hm : INT_MIN ≤ 0 := by decide
  have hrep' : t.rows * t.columns ≤ INT_MAX := hrep
  refine ⟨wrapInt_eq _ (by omega) (by omega), hoff, by omega, h1, by omega, ?_, ?_, ?_⟩
  · rw [hoff, hcells]
    exact ⟨_, load_some cells _ (by omega) _ (List.getElem?_eq_getElem hk)⟩
  · intro v
    rw [hoff, hcells]
    exact ⟨_, store_some cells _ (by omega) (by omega) v⟩
  · intro r' c' hr0 hr1 hc0 hc1 hne heq
    rw [hoff, offset_eq t.rows t.columns r' c' hr0 hr1 hc0 hc1 hrep] at heq
    obtain ⟨e1, e2⟩ := cell_inj t.columns r' c' r c hc0 hc1 hc.1 hc.2 heq
    exact hne (by rw [e1, e2])

theorem c16_index_safety_witness :
    wrapInt (1 * squareTable.columns) = 1 * squareTable.columns ∧
      wrapInt (wrapInt (1 * squareTable.columns) + 0) = 1 * squareTable.columns + 0 ∧
      0 ≤ 1 * squareTable.columns + 0 ∧
      1 * squareTable.columns + 0 < squareTable.rows * squareTable.columns ∧
      1 * squareTable.columns + 0 < storeLen squareTable.values ∧
      (∃ v, load squareTable.values (wrapInt (wrapInt (1 * squareTable.columns) + 0)) = .ok v) ∧
      (∀ v, ∃ p, store squareTable.values (wrapInt (wrapInt (1 * squareTable.columns) + 0)) v =
        .ok p) ∧
      (∀ r' c', 0 ≤ r' → r' < squareTable.rows → 0 ≤ c' → c' < squareTable.columns →
        (r', c') ≠ (1, 0) →
        wrapInt (wrapInt (r' * squareTable.columns) + c') ≠
          wrapInt (wrapInt (1 * squareTable.columns) + 0)) :=
  c16_index_safety squareTable (by decide) (by decide) 1 0 (by decide) (by decide)

/-! ## Resize: unreachable read failure, identity and round trip -/

theorem wideTable_inv : StoreInv wideTable := by
  refine ⟨by decide, by decide, ?_, ?_⟩
  · show ((List.replicate (2 * 2147483647) 0).length : Int) = 2 * 2147483647
    rw [List.length_replicate]; rfl
  · intro h; exact absurd h (by decide)

theorem wideTable_get_faults (d : Nat) :
    t2_get (some wideTable) 1 1 (some d) = .error .memory := by
  have hw : wrapInt (wrapInt (1 * 2147483647) + 1) = -2147483648 := by decide
  have hnb : ¬ ((1 : Int) < 0 ∨ (1 : Int) ≥ 2 ∨ (1 : Int) < 0 ∨ (1 : Int) ≥ 2147483647) := by
    decide
  have hcol : wideTable.columns = 2147483647 := rfl
  have hrow : wideTable.rows = 2 := rfl
  have hl : load wideTable.values (-2147483648) = .error .memory := load_neg _ _ (by decide)
  simp only [t2_get, hcol, hrow, hnb, if_false, hw, hl]

/-- Two stores of `R * C` cells that agree at every in-bounds offset
`r * C + c` are equal. -/
theorem store_ext (R C : Int) (hC : 0 < C) (l l' : List α)
    (hl : (l.length : Int) = R * C) (hl' : (l'.length : Int) = R * C)
    (h : ∀ r c, 0 ≤ r → r < R → 0 ≤ c → c < C →
      l[(r * C + c).toNat]? = l'[(r * C + c).toNat]?) : l = l' := by
  apply List.ext_getElem?
  intro j
  by_cases hj : (j : Int) < R * C
  · have hdm : (j : Int) / C * C + (j : Int) % C = j := by
      have := Int.ediv_add_emod (j : Int) C
      linarith [mul_comm ((j : Int) / C) C]
    have h0 : 0 ≤ (j : Int) / C := Int.ediv_nonneg (by omega) (le_of_lt hC)
    have h1 : (j : Int) / C < R := Int.ediv_lt_of_lt_mul hC hj
    have h2 : 0 ≤ (j : Int) % C := Int.emod_nonneg _ (by omega)
    have h3 : (j : Int) % C < C := Int.emod_lt_of_pos _ hC
    have := h ((j : Int) / C) ((j : Int) % C) h0 h1 h2 h3
    rw [hdm] at this
    simpa using this
  · have h1 : l.length ≤ j := by omega
    have h2 : l'.length ≤ j := by omega
    rw [List.getElem?_eq_none h1, List.getElem?_eq_none h2]

/-- C17 (as stated, refuted): (a) `unitTable` satisfies the invariant and the sizes
`65536, 65536` are non-negative with a positive product, but after `t2_resize`
returns OK the table reports 0 x 0, not 65536 x 65536; (b) `wideTable` satisfies
the invariant, yet the read `t2_get(1, 1)` that `t2_resize(t, 2, 2, fill)` issues
does not return OK (it falls outside the store), and the resize does not return. -/
theorem c17_resize_overflow :
    (StoreInv unitTable ∧ (0 : Int) < 65536 * 65536 ∧
      t2_resize (fun _ => 0) (some unitTable) 65536 65536 9 =
        .ok (T2_OK, some { values := none, columns := 0, rows := 0 })) ∧
    (StoreInv wideTable ∧ (1 : Int) < min 2 wideTable.rows ∧ (1 : Int) < min 2 wideTable.columns ∧
      t2_get (some wideTable) 1 1 (some 0) = .error .memory ∧
      t2_resize (fun _ => 0) (some wideTable) 2 2 9 = .error .memory) :=
  ⟨by decide, wideTable_inv, by decide, by decide, wideTable_get_faults 0,
    wide_resize_faults (fun _ => 0) _ 0 0 0 9
      (by rw [List.getElem?_replicate]; rfl) (by rw [List.getElem?_replicate]; rfl)
      (by rw [List.getElem?_replicate]; rfl)⟩

/-- C17 (amended): for a present table satisfying the invariant with
`rows * columns <= INT_MAX` and `newRows >= 0`, `newColumns >= 0` with
`newRows * newColumns <= INT_MAX`: every `t2_get` at `r < min(newRows, rows)`,
`c < min(newColumns, columns)` returns OK, `t2_resize` returns OK, and on return
the table has rows = newRows and columns = newColumns whenever
`newRows * newColumns > 0`. -/
theorem c17_resize_reads_ok (junk : Nat → α) (t : Table2 α) (hinv : StoreInv t)
    (hrep : Representable t) (nr nc : Int) (hnr : 0 ≤ nr) (hnc : 0 ≤ nc)
    (hmax : nr * nc ≤ INT_MAX) (fill : α) :
    (∀ r c, 0 ≤ r → r < min nr t.rows → 0 ≤ c → c < min nc t.columns → ∀ d,
      ∃ v, t2_get (some t) r c (some d) = .ok (T2_OK, some v)) ∧
    ∃ t', t2_resize junk (some t) nr nc fill = .ok (T2_OK, some t') ∧
      (0 < nr * nc → t'.rows = nr ∧ t'.columns = nc) := by
  constructor
  · intro r c hr hr' hc hc' d
    obtain ⟨v, _, hget⟩ := t2_get_in_bounds t hinv hrep r c hr
      (lt_of_lt_of_le hr' (min_le_right _ _)) hc (lt_of_lt_of_le hc' (min_le_right _ _)) d
    exact ⟨v, hget⟩
  · by_cases h0 : nr * nc = 0
    · have hneg : ¬ (nr < 0 ∨ nc < 0) := by omega
      have hw : wrapInt 0 = 0 := by decide
      refine ⟨emptyTable, ?_, fun h => by omega⟩
      simp only [t2_resize, hneg, if_false, h0, hw, if_true, t2_clear_eq]
    · have hnr' : 0 < nr := by
        rcases lt_or_eq_of_le hnr with h | h
        · exact h
        · rw [← h] at h0; simp at h0
      have hnc' : 0 < nc := by
        rcases lt_or_eq_of_le hnc with h | h
        · exact h
        · rw [← h] at h0; simp at h0
      obtain ⟨l, hres, _, _⟩ := t2_resize_pos junk t hinv hrep nr nc hnr' hnc' hmax fill
      exact ⟨_, hres, fun _ => ⟨rfl, rfl⟩⟩

theorem c17_resize_reads_ok_witness :
    (∀ r c, 0 ≤ r → r < min 3 squareTable.rows → 0 ≤ c → c < min 1 squareTable.columns → ∀ d,
      ∃ v, t2_get (some squareTable) r c (some d) = .ok (T2_OK, some v)) ∧
    ∃ t', t2_resize (fun _ => 0) (some squareTable) 3 1 9 = .ok (T2_OK, some t') ∧
      ((0 : Int) < 3 * 1 → t'.rows = 3 ∧ t'.columns = 1) :=
  c17_resize_reads_ok (fun _ => 0) squareTable (by decide) (by decide) 3 1 (by decide)
    (by decide) (by decide) 9

/-- Positive factors of a positive product of non-negative integers. -/
theorem pos_of_mul_pos (a b : Int) (ha : 0 ≤ a) (hb : 0 ≤ b) (h : 0 < a * b) : 0 < a ∧ 0 < b := by
  constructor
  · rcases lt_or_eq_of_le ha with h1 | h1
    · exact h1
    · rw [← h1] at h; simp at h
  · rcases lt_or_eq_of_le hb with h1 | h1
    · exact h1
    · rw [← h1] at h; simp at h

/-- When the `int` product of non-negative sizes is 0, `t2_resize` clears the
table and returns OK. -/
theorem t2_resize_wraps_to_zero (junk : Nat → α) (t : Table2 α) (nr nc : Int) (fill : α)
    (hneg : ¬ (nr < 0 ∨ nc < 0)) (hw : wrapInt (nr * nc) = 0) :
    t2_resize junk (some t) nr nc fill =
      .ok (T2_OK, some { values := none, columns := 0, rows := 0 }) := by
  simp only [t2_resize, hneg, if_false, hw, if_true, t2_clear_eq]
  rfl

/-- C19 (as stated, refuted): `hugeTable` has `rows * columns > 0` and satisfies
the invariant, but `t2_resize` to its own dimensions 65536 x 65536 computes the
element count 0, clears the table and returns OK: rows and columns become 0. -/
theorem c19_resize_same_overflow :
    StoreInv hugeTable ∧ (0 : Int) < hugeTable.rows * hugeTable.columns ∧
      t2_resize (fun _ => 0) (some hugeTable) hugeTable.rows hugeTable.columns 9 =
        .ok (T2_OK, some { values := none, columns := 0, rows := 0 }) := by
  exact ⟨hugeTable_inv, by decide,
    t2_resize_wraps_to_zero (fun _ => 0) hugeTable 65536 65536 9 (by decide) (by decide)⟩

/-- C19 (amended): for a table with `0 < rows * columns <= INT_MAX` satisfying the
invariant and every fill value, `t2_resize(t, rows, columns, fill)` returns OK and
leaves rows, columns and every stored element as they were. -/
theorem c19_resize_same (junk : Nat → α) (t : Table2 α) (hinv : StoreInv t)
    (hrep : Representable t) (hpos : 0 < t.rows * t.columns) (fill : α) :
    t2_resize junk (some t) t.rows t.columns fill = .ok (T2_OK, some t) := by
  obtain ⟨hR, hC⟩ := pos_of_mul_pos _ _ hinv.1 hinv.2.1 hpos
  obtain ⟨l, hres, hlen, hfill⟩ :=
    t2_resize_pos junk t hinv hrep t.rows t.columns hR hC hrep fill
  obtain ⟨cells, hcells, hl⟩ := values_of_pos t (by rw [hinv.2.2.1]; exact hpos)
  have heq : l = cells := by
    apply store_ext t.rows t.columns hC l cells hlen (by rw [hl, hinv.2.2.1])
    intro r c hr hr' hc hc'
    have h1 := (cell_bound t.rows t.columns r c hr hr' hc hc').2
    have hin : r < t.rows ∧ c < t.columns := ⟨hr', hc'⟩
    have hk : (r * t.columns + c).toNat < cells.length := by
      have := (cell_bound t.rows t.columns r c hr hr' hc hc').1
      have := hinv.2.2.1
      omega
    rw [hfill r c hr hc hc' h1]
    simp [expected, hin, cellAt, hcells, List.getElem?_eq_getElem hk]
  rw [hres, heq, ← hcells]

theorem c19_resize_same_witness :
    t2_resize (fun _ => 0) (some squareTable) squareTable.rows squareTable.columns 9 =
      .ok (T2_OK, some squareTable) :=
  c19_resize_same (fun _ => 0) squareTable (by decide) (by decide) (by decide) 9

/-- C20 (as stated, refuted): `unitTable` is a 1 x 1 table satisfying the
invariant and `65536 >= 1`; `t2_resize(t, 65536, 65536, 9)` returns OK but clears
the table (the product wraps to 0), and `t2_resize(t, 1, 1, 8)` then returns OK
with the single cell 8 instead of the original 5. -/
theorem c20_round_trip_overflow :
    StoreInv unitTable ∧ (0 : Int) < unitTable.rows * unitTable.columns ∧
      unitTable.rows ≤ 65536 ∧ unitTable.columns ≤ 65536 ∧
      t2_resize (fun _ => 0) (some unitTable) 65536 65536 9 =
        .ok (T2_OK, some { values := none, columns := 0, rows := 0 }) ∧
      t2_resize (fun _ => 0) (some { values := none, columns := 0, rows := 0 }) 1 1 8 =
        .ok (T2_OK, some { values := some [8], columns := 1, rows := 1 }) ∧
      ({ values := some [8], columns := 1, rows := 1 } : Table2 Nat) ≠ unitTable := by
  decide

/-- C20 (amended): for an `R x C` table with `R * C > 0` satisfying the invariant,
`R2 >= R`, `C2 >= C` with `R2 * C2 <= INT_MAX` and fill values `f1`, `f2`:
`t2_resize(t, R2, C2, f1)` followed by `t2_resize(t, R, C, f2)` returns OK twice
and restores exactly the original table. -/
theorem c20_grow_shrink (junk junk' : Nat → α) (t : Table2 α) (hinv : StoreInv t)
    (hpos : 0 < t.rows * t.columns) (R2 C2 : Int) (hR2 : t.rows ≤ R2) (hC2 : t.columns ≤ C2)
    (hmax : R2 * C2 ≤ INT_MAX) (f1 f2 : α) :
    ∃ t1, t2_resize junk (some t) R2 C2 f1 = .ok (T2_OK, some t1) ∧
      t2_resize junk' (some t1) t.rows t.columns f2 = .ok (T2_OK, some t) := by
  obtain ⟨hR, hC⟩ := pos_of_mul_pos _ _ hinv.1 hinv.2.1 hpos
  have hle : t.rows * t.columns ≤ R2 * C2 :=
    mul_le_mul hR2 hC2 (le_of_lt hC) (by omega)
  have hrep : Representable t := le_trans hle hmax
  obtain ⟨l1, hres1, hlen1, hfill1⟩ :=
    t2_resize_pos junk t hinv hrep R2 C2 (by omega) (by omega) hmax f1
  have hinv1 : StoreInv ({ values := some l1, columns := C2, rows := R2 } : Table2 α) :=
    ⟨show 0 ≤ R2 by omega, show 0 ≤ C2 by omega, by simpa [storeLen] using hlen1,
      fun h => by simp at h; omega⟩
  have hrep1 : Representable ({ values := some l1, columns := C2, rows := R2 } : Table2 α) :=
    hmax
  obtain ⟨l2, hres2, hlen2, hfill2⟩ :=
    t2_resize_pos junk' _ hinv1 hrep1 t.rows t.columns hR hC hrep f2
  obtain ⟨cells, hcells, hl⟩ := values_of_pos t (by rw [hinv.2.2.1]; exact hpos)
  have heq : l2 = cells := by
    apply store_ext t.rows t.columns hC l2 cells hlen2 (by rw [hl, hinv.2.2.1])
    intro r c hr hr' hc hc'
    have hb := cell_bound t.rows t.columns r c hr hr' hc hc'
    have hb2 := cell_bound R2 C2 r c hr (by omega) hc (by omega)
    have hin : r < t.rows ∧ c < t.columns := ⟨hr', hc'⟩
    have hin2 : r < R2 ∧ c < C2 := ⟨by omega, by omega⟩
    have hk : (r * t.columns + c).toNat < cells.length := by
      have := hinv.2.2.1
      omega
    rw [hfill2 r c hr hc hc' hb.2]
    have h1 := hfill1 r c hr hc (by omega) hb2.2
    simp [expected, hin, hin2, cellAt, hcells, h1, List.getElem?_eq_getElem hk]
  refine ⟨_, hres1, ?_⟩
  rw [hres2, heq, ← hcells]

theorem c20_grow_shrink_witness :
    ∃ t1, t2_resize (fun _ => 0) (some squareTable) 3 4 9 = .ok (T2_OK, some t1) ∧
      t2_resize (fun _ => 1) (some t1) squareTable.rows squareTable.columns 8 =
        .ok (T2_OK, some squareTable) :=
  c20_grow_shrink (fun _ => 0) (fun _ => 1) squareTable (by decide) (by decide) 3 4
    (by decide) (by decide) (by decide) 9 8

/-! ## Rendering -/

theorem streamText_append (a b : List String) :
    streamText (a ++ b) = streamText a ++ streamText b := by
  induction a with
  | nil => simp [streamText]
  | cons s ss ih => simp [streamText, ih, String.append_assoc]

theorem streamText_rowChunks (fmt : α → String) (vs : List α) :
    streamText (rowChunks fmt vs) = sepValues fmt vs := by
  induction vs with
  | nil => rfl
  | cons v vs ih =>
    cases vs with
    | nil => simp [rowChunks, sepValues, streamText]
    | cons w ws => simp only [rowChunks, sepValues, streamText, ih]

theorem rowChunks_length (fmt : α → String) (vs : List α) :
    (rowChunks fmt vs).length = vs.length := by
  induction vs with
  | nil => rfl
  | cons v vs ih =>
    cases vs with
    | nil => rfl
    | cons w ws => simp only [rowChunks, List.length_cons, ih]

/-- The text written for the value in column `c`: with a separator unless it is
the last one. -/
theorem rowChunks_getElem? (fmt : α → String) (vs : List α) (c : Nat) (v : α)
    (hv : vs[c]? = some v) :
    (rowChunks fmt vs)[c]? = some (if c + 1 < vs.length then fmt v ++ ", " else fmt v) := by
  induction vs generalizing c with
  | nil => simp at hv
  | cons u us ih =>
    cases us with
    | nil =>
      cases c with
      | zero => simp at hv; simp [rowChunks, hv]
      | succ c => simp at hv
    | cons w ws =>
      cases c with
      | zero => simp at hv; simp [rowChunks, hv]
      | succ c =>
        have hv' : (w :: ws)[c]? = some v := by simpa using hv
        have := ih c hv'
        simp only [rowChunks, List.getElem?_cons_succ, this, List.length_cons]
        simp

theorem rowValues_getElem? (t : Table2 α) (cells : List α) (hcells : t.values = some cells)
    (r c : Int) (hr : 0 ≤ r * t.columns) (hc : 0 ≤ c) (hc' : c < t.columns) :
    (rowValues t r)[c.toNat]? = cells[(r * t.columns + c).toNat]? := by
  have h1 : c.toNat < t.columns.toNat := by omega
  have h2 : (r * t.columns + c).toNat = (r * t.columns).toNat + c.toNat := by omega
  simp only [rowValues, hcells, Option.getD_some, List.getElem?_take_of_lt h1,
    List.getElem?_drop, h2]

theorem rowValues_length (t : Table2 α) (cells : List α) (hcells : t.values = some cells)
    (r : Int) (hr : 0 ≤ r * t.columns)
    (hlen : r * t.columns + t.columns ≤ cells.length) :
    (rowValues t r).length = t.columns.toNat := by
  simp only [rowValues, hcells, Option.getD_some, List.length_take, List.length_drop]
  omega

/-- The column loop of `t2_print` on a row whose reads all succeed writes the
texts `rowChunks` of the row values. -/
theorem print_cols (fmt : α → String) (t : Table2 α) (r : Int) (vs : List α)
    (hC : 0 ≤ t.columns) (hlen : vs.length = t.columns.toNat)
    (H : ∀ c, 0 ≤ c → c < t.columns → ∀ d,
      ∃ v, t2_get (some t) r c (some d) = .ok (T2_OK, some v) ∧ vs[c.toNat]? = some v)
    (s : Print α) :
    ∃ s', forLoop 0 t.columns (fun c s => printCell fmt t r c s) s = .ok s' ∧
      s'.out = s.out ++ rowChunks fmt vs := by
  obtain ⟨s', hl, hP⟩ := forLoop_inv 0 t.columns (fun c s => printCell fmt t r c s)
    (fun c s' => s'.out = s.out ++ (rowChunks fmt vs).take c.toNat) hC
    (fun c s1 hlo hhi hP => by
      obtain ⟨v, hget, hv⟩ := H c hlo hhi s1.val
      have hchunk := rowChunks_getElem? fmt vs c.toNat v hv
      have hcond : (c.toNat + 1 < vs.length) ↔ (c + 1 < t.columns) := by omega
      have hsucc : (c + 1).toNat = c.toNat + 1 := by omega
      refine ⟨{ out := s1.out ++ [if c + 1 < t.columns then fmt v ++ ", " else fmt v],
                val := v }, ?_, ?_⟩
      · simp only [printCell, hget, Option.getD_some, ne_eq, not_true_eq_false, if_false]
      · show s1.out ++ _ = _
        rw [hsucc, List.take_succ, hchunk, hP]
        simp only [hcond, Option.toList, List.append_assoc])
    s (by simp)
  refine ⟨s', hl, ?_⟩
  rw [hP, List.take_of_length_le (by rw [rowChunks_length]; omega)]

theorem print_row (fmt : α → String) (t : Table2 α) (r : Int) (vs : List α)
    (hC : 0 ≤ t.columns) (hlen : vs.length = t.columns.toNat)
    (H : ∀ c, 0 ≤ c → c < t.columns → ∀ d,
      ∃ v, t2_get (some t) r c (some d) = .ok (T2_OK, some v) ∧ vs[c.toNat]? = some v)
    (s : Print α) :
    ∃ s', printRow fmt t r s = .ok s' ∧
      s'.out = s.out ++ ("  [" :: rowChunks fmt vs ++ ["]\n"]) := by
  obtain ⟨s1, hl, hout⟩ := print_cols fmt t r vs hC hlen H { s with out := s.out ++ ["  ["] }
  refine ⟨{ s1 with out := s1.out ++ ["]\n"] }, by simp only [printRow, hl], ?_⟩
  show s1.out ++ _ = _
  rw [hout]
  simp

/-- The row loop of `t2_print` on a table whose reads all succeed writes the
texts `printedRows` of all rows. -/
theorem print_rows (fmt : α → String) (t : Table2 α) (hR : 0 ≤ t.rows) (hC : 0 ≤ t.columns)
    (H : ∀ r, 0 ≤ r → r < t.rows → (rowValues t r).length = t.columns.toNat ∧
      ∀ c, 0 ≤ c → c < t.columns → ∀ d,
        ∃ v, t2_get (some t) r c (some d) = .ok (T2_OK, some v) ∧
          (rowValues t r)[c.toNat]? = some v)
    (s : Print α) :
    ∃ s', forLoop 0 t.rows (fun r s => printRow fmt t r s) s = .ok s' ∧
      s'.out = s.out ++ printedRows fmt t t.rows.toNat :=
  forLoop_inv 0 t.rows (fun r s => printRow fmt t r s)
    (fun r s' => s'.out = s.out ++ printedRows fmt t r.toNat) hR
    (fun r s1 hlo hhi hP => by
      obtain ⟨hlen, Hr⟩ := H r hlo hhi
      obtain ⟨s2, hrow, hout⟩ := print_row fmt t r (rowValues t r) hC hlen Hr s1
      refine ⟨s2, hrow, ?_⟩
      have hsucc : (r + 1).toNat = r.toNat + 1 := by omega
      have hcast : ((r.toNat : Nat) : Int) = r := Int.toNat_of_nonneg hlo
      show s2.out = s.out ++ printedRows fmt t (r + 1).toNat
      have hP' : s1.out = s.out ++ printedRows fmt t r.toNat := hP
      rw [hout, hP', hsucc]
      simp only [printedRows, hcast, List.append_assoc])
    s (by simp [printedRows])

theorem streamText_printedRows (fmt : α → String) (t : Table2 α) (n : Nat) :
    streamText (printedRows fmt t n) =
      streamText (((List.range n).map
        (fun (r : Nat) => rowLine fmt (rowValues t (r : Int)))).map
          (fun line => line ++ "\n")) := by
  induction n with
  | zero => rfl
  | succ n ih =>
    have hnl : "]" ++ "\n" = "]\n" := by decide
    rw [List.range_succ]
    simp only [printedRows, streamText_append, ih, List.map_append, List.map_cons, List.map_nil]
    simp only [streamText, streamText_append, streamText_rowChunks, rowLine,
      String.append_assoc, String.append_empty, hnl]

/-- On a well-formed table of representable size every read of `t2_print`
succeeds and delivers the corresponding row value. -/
theorem print_reads (t : Table2 α) (hinv : StoreInv t) (hrep : Representable t)
    (r : Int) (hr : 0 ≤ r) (hr' : r < t.rows) :
    (rowValues t r).length = t.columns.toNat ∧
      ∀ c, 0 ≤ c → c < t.columns → ∀ d,
        ∃ v, t2_get (some t) r c (some d) = .ok (T2_OK, some v) ∧
          (rowValues t r)[c.toNat]? = some v := by
  by_cases hC0 : t.columns = 0
  · refine ⟨by simp [rowValues, hC0], ?_⟩
    intro c hc hc'
    omega
  · have hC : 0 < t.columns := by have := hinv.2.1; omega
    have hprod : 0 < t.rows * t.columns := mul_pos (by omega) hC
    obtain ⟨cells, hcells, hl⟩ := values_of_pos t (by rw [hinv.2.2.1]; exact hprod)
    have hrc : 0 ≤ r * t.columns := mul_nonneg hr (le_of_lt hC)
    have hlen := hinv.2.2.1
    constructor
    · apply rowValues_length t cells hcells r hrc
      have : (r + 1) * t.columns ≤ t.rows * t.columns :=
        mul_le_mul_of_nonneg_right (by omega) (le_of_lt hC)
      have h2 : (r + 1) * t.columns = r * t.columns + t.columns := by ring
      omega
    · intro c hc hc' d
      obtain ⟨v, hv, hget⟩ := t2_get_in_bounds t hinv hrep r c hr hr' hc hc' d
      refine ⟨v, hget, ?_⟩
      rw [rowValues_getElem? t cells hcells r c hrc hc hc']
      simpa [cellAt, hcells] using hv

/-- C18 (amended): for a present table satisfying the invariant with
`rows * columns <= INT_MAX`, `t2_print` returns OK, writes nothing to stderr, and
the text it writes to stdout consists of exactly `rows + 1` lines, each ended by a
newline: the header `Table <rows>x<columns>`, then for each row the line made of
two blanks, an opening bracket, the row values in column order rendered by `%f`
and separated by `", "` with no trailing separator, and a closing bracket.  (The
embedding of `t2_print` has no table result: the source function contains no
assignment through `t`.) -/
theorem c18_print (junk : Nat → α) (fmt : α → String) (t : Table2 α) (hinv : StoreInv t)
    (hrep : Representable t) :
    ∃ out, t2_print junk fmt (some t) = .ok (T2_OK, out, []) ∧
      streamText out = streamText ((tableLines fmt t).map (fun line => line ++ "\n")) ∧
      ((tableLines fmt t).length : Int) = t.rows + 1 ∧
      tableLines fmt t = ("Table " ++ toString t.rows ++ "x" ++ toString t.columns) ::
        (List.range t.rows.toNat).map
          (fun (r : Nat) => "  [" ++ sepValues fmt (rowValues t (r : Int)) ++ "]") := by
  obtain ⟨s', hloop, hout⟩ := print_rows fmt t hinv.1 hinv.2.1
    (fun r hr hr' => print_reads t hinv hrep r hr hr')
    { out := ["Table " ++ toString t.rows ++ "x" ++ toString t.columns ++ "\n"], val := junk 0 }
  refine ⟨s'.out, by simp only [t2_print, hloop], ?_, ?_, rfl⟩
  · have hout' : s'.out =
        ["Table " ++ toString t.rows ++ "x" ++ toString t.columns ++ "\n"] ++
          printedRows fmt t t.rows.toNat := hout
    rw [hout', streamText_append, streamText_printedRows]
    simp only [tableLines, List.map_cons, streamText, String.append_empty]
  · have := hinv.1
    simp only [tableLines, List.length_cons, List.length_map, List.length_range]
    omega

theorem c18_print_witness :
    ∃ out, t2_print (fun _ => 0) (fun n : Nat => toString n) (some squareTable) =
        .ok (T2_OK, out, []) ∧
      streamText out =
        streamText ((tableLines (fun n : Nat => toString n) squareTable).map
          (fun line => line ++ "\n")) ∧
      ((tableLines (fun n : Nat => toString n) squareTable).length : Int) =
        squareTable.rows + 1 ∧
      tableLines (fun n : Nat => toString n) squareTable =
        ("Table " ++ toString squareTable.rows ++ "x" ++ toString squareTable.columns) ::
          (List.range squareTable.rows.toNat).map
            (fun (r : Nat) =>
              "  [" ++ sepValues (fun n : Nat => toString n) (rowValues squareTable (r : Int)) ++
                "]") :=
  c18_print (fun _ => 0) (fun n : Nat => toString n) squareTable (by decide) (by decide)

/-- The dump of the 2 x 2 table `squareTable`. -/
theorem t2_print_sample :
    (t2_print (fun _ => 0) (fun n : Nat => toString n) (some squareTable)).map
        (fun res => (res.1, streamText res.2.1, res.2.2)) =
      .ok (T2_OK, "Table 2x2\n  [1, 2]\n  [3, 4]\n", []) := by
  decide

theorem forLoopAux_split {ε σ : Type} (body : Int → σ → Except ε σ) :
    ∀ (m n : Nat) (i : Int) (s : σ),
      forLoopAux body (m + n) i s =
        match forLoopAux body m i s with
        | .error e => .error e
        | .ok s' => forLoopAux body n (i + m) s' := by
  intro m
  induction m with
  | zero => intro n i s; simp [forLoopAux]
  | succ m ih =>
    intro n i s
    have : m + 1 + n = (m + n) + 1 := by omega
    rw [this]
    simp only [forLoopAux]
    cases hb : body i s with
    | error e => rfl
    | ok s1 =>
      simp only []
      rw [ih n (i + 1) s1]
      have : i + 1 + (m : Int) = i + ((m + 1 : Nat) : Int) := by push_cast; ring
      rw [this]

/-- A counting loop whose body stops at counter value `k`, after runs that
preserve `P`, stops the same way. -/
theorem forLoop_stop {ε σ : Type} (lo hi k : Int) (body : Int → σ → Except ε σ)
    (P : Int → σ → Prop) (e : ε) (hlo : lo ≤ k) (hk : k < hi)
    (hstep : ∀ i s, lo ≤ i → i < k → P i s → ∃ s', body i s = .ok s' ∧ P (i + 1) s')
    (hfail : ∀ s, P k s → body k s = .error e) (s : σ) (h0 : P lo s) :
    forLoop lo hi body s = .error e := by
  have hn : (hi - lo).toNat = (k - lo).toNat + ((hi - k - 1).toNat + 1) := by omega
  obtain ⟨s1, h1, hP1⟩ := forLoopAux_inv body (fun i s => lo ≤ i ∧ P i s) k
    (fun i s hlt hP => by
      obtain ⟨s', hb, hP'⟩ := hstep i s hP.1 hlt hP.2
      exact ⟨s', hb, by omega, hP'⟩)
    (k - lo).toNat lo s (by omega) ⟨le_refl _, h0⟩
  have hk' : lo + ((k - lo).toNat : Int) = k := by omega
  rw [forLoop, hn, forLoopAux_split, h1]
  simp only [forLoopAux, hk', hfail s1 hP1.2]

/-- A read whose offset does not wrap and lies in the store returns OK with the
store element. -/
theorem t2_get_no_wrap (t : Table2 α) (cells : List α) (hcells : t.values = some cells)
    (r c : Int) (hb : ¬ (r < 0 ∨ r ≥ t.rows ∨ c < 0 ∨ c ≥ t.columns))
    (hw : wrapInt (wrapInt (r * t.columns) + c) = r * t.columns + c)
    (h0 : 0 ≤ r * t.columns + c) (v : α) (hv : cells[(r * t.columns + c).toNat]? = some v)
    (d : α) : t2_get (some t) r c (some d) = .ok (T2_OK, some v) := by
  simp only [t2_get, hb, if_false, hw, hcells]
  rw [load_some cells _ h0 v hv]

theorem wideTable_get_row0 (c : Int) (hc : 0 ≤ c) (hc' : c < 2147483647) (d : Nat) :
    t2_get (some wideTable) 0 c (some d) = .ok (T2_OK, some 0) := by
  have hm : INT_MIN ≤ 0 := by decide
  have hM : (2147483647 : Int) ≤ INT_MAX := by decide
  apply t2_get_no_wrap wideTable (List.replicate (2 * 2147483647) 0) rfl 0 c
  · show ¬ ((0 : Int) < 0 ∨ (0 : Int) ≥ 2 ∨ c < 0 ∨ c ≥ 2147483647)
    omega
  · show wrapInt (wrapInt (0 * 2147483647) + c) = 0 * 2147483647 + c
    have h0 : wrapInt (0 * 2147483647) = 0 := by decide
    rw [h0, wrapInt_eq _ (by omega) (by omega)]
    omega
  · show (0 : Int) ≤ 0 * 2147483647 + c
    omega
  · show (List.replicate (2 * 2147483647) 0)[((0 : Int) * 2147483647 + c).toNat]? = some 0
    rw [List.getElem?_replicate, if_pos (by omega)]

theorem wideTable_get_row1 (d : Nat) :
    t2_get (some wideTable) 1 0 (some d) = .ok (T2_OK, some 0) := by
  apply t2_get_no_wrap wideTable (List.replicate (2 * 2147483647) 0) rfl 1 0
  · show ¬ ((1 : Int) < 0 ∨ (1 : Int) ≥ 2 ∨ (0 : Int) < 0 ∨ (0 : Int) ≥ 2147483647)
    decide
  · show wrapInt (wrapInt (1 * 2147483647) + 0) = 1 * 2147483647 + 0
    decide
  · show (0 : Int) ≤ 1 * 2147483647 + 0
    decide
  · show (List.replicate (2 * 2147483647) 0)[((1 : Int) * 2147483647 + 0).toNat]? = some 0
    rw [List.getElem?_replicate, if_pos (by decide)]

theorem printCell_ok (fmt : α → String) (t : Table2 α) (r c : Int) (s : Print α) (v : α)
    (h : t2_get (some t) r c (some s.val) = .ok (T2_OK, some v)) :
    printCell fmt t r c s =
      .ok { out := s.out ++ [if c + 1 < t.columns then fmt v ++ ", " else fmt v], val := v } := by
  simp only [printCell, h, Option.getD_some, ne_eq, not_true_eq_false, if_false]

theorem printCell_fault (fmt : α → String) (t : Table2 α) (r c : Int) (s : Print α) (f : Fault)
    (h : t2_get (some t) r c (some s.val) = .error f) :
    printCell fmt t r c s = .error .fault := by
  simp only [printCell, h]

theorem printRow_stop (fmt : α → String) (t : Table2 α) (r : Int) (s : Print α) (e : PrintStop)
    (h : forLoop 0 t.columns (fun c s => printCell fmt t r c s)
      { s with out := s.out ++ ["  ["] } = .error e) :
    printRow fmt t r s = .error e := by
  simp only [printRow, h]

theorem t2_print_stop (junk : Nat → α) (fmt : α → String) (t : Table2 α)
    (h : forLoop 0 t.rows (fun r s => printRow fmt t r s)
      { out := ["Table " ++ toString t.rows ++ "x" ++ toString t.columns ++ "\n"],
        val := junk 0 } = .error .fault) :
    t2_print junk fmt (some t) = .error .memory := by
  simp only [t2_print, h]

/-- Row 0 of `wideTable` is printed without a stop. -/
theorem wideTable_print_row0 (fmt : Nat → String) (s : Print Nat) :
    ∃ s', printRow fmt wideTable 0 s = .ok s' := by
  have hcol : wideTable.columns = 2147483647 := rfl
  have hlen : (rowValues wideTable 0).length = wideTable.columns.toNat := by
    apply rowValues_length wideTable (List.replicate (2 * 2147483647) 0) rfl 0
    · decide
    · rw [List.length_replicate, hcol]; decide
  have H : ∀ c, 0 ≤ c → c < wideTable.columns → ∀ d,
      ∃ v, t2_get (some wideTable) 0 c (some d) = .ok (T2_OK, some v) ∧
        (rowValues wideTable 0)[c.toNat]? = some v := by
    intro c hc hc' d
    rw [hcol] at hc'
    refine ⟨0, wideTable_get_row0 c hc hc' d, ?_⟩
    rw [rowValues_getElem? wideTable (List.replicate (2 * 2147483647) 0) rfl 0 c (by decide) hc
      (by rw [hcol]; exact hc')]
    rw [List.getElem?_replicate, if_pos (by rw [hcol]; omega)]
  obtain ⟨s', h, _⟩ := print_row fmt wideTable 0 (rowValues wideTable 0) (by decide) hlen H s
  exact ⟨s', h⟩

/-- Row 1 of `wideTable`: cell `(1, 0)` is read and printed, the read of cell
`(1, 1)` falls outside the store. -/
theorem wideTable_print_row1 (fmt : Nat → String) (s : Print Nat) :
    printRow fmt wideTable 1 s = .error .fault :=
  printRow_stop fmt wideTable 1 s .fault
    (forLoop_stop 0 wideTable.columns 1 (fun c s => printCell fmt wideTable 1 c s)
      (fun _ _ => True) PrintStop.fault (by decide) (by decide)
      (fun i s1 hlo hhi _ => by
        have hi : i = 0 := by omega
        subst hi
        exact ⟨_, printCell_ok fmt wideTable 1 0 s1 0 (wideTable_get_row1 s1.val), trivial⟩)
      (fun s1 _ => printCell_fault fmt wideTable 1 1 s1 _ (wideTable_get_faults s1.val))
      _ trivial)

theorem wideTable_print_faults (fmt : Nat → String) :
    t2_print (fun _ => 0) fmt (some wideTable) = .error .memory :=
  t2_print_stop (fun _ => 0) fmt wideTable
    (forLoop_stop 0 wideTable.rows 1 (fun r s => printRow fmt wideTable r s)
      (fun _ _ => True) PrintStop.fault (by decide) (by decide)
      (fun i s1 hlo hhi _ => by
        have hi : i = 0 := by omega
        subst hi
        obtain ⟨s', h⟩ := wideTable_print_row0 fmt s1
        exact ⟨s', h, trivial⟩)
      (fun s1 _ => wideTable_print_row1 fmt s1)
      _ trivial)

/-- C18 (as stated, refuted): `wideTable` satisfies the invariant, but `t2_print`
on it does not return OK: after row 0 and cell `(1, 0)`, the read of cell `(1, 1)`
computes the offset `2147483647 + 1`, which wraps, and falls outside the store. -/
theorem c18_print_wide_table_faults :
    StoreInv wideTable ∧
      t2_print (fun _ => 0) (fun n : Nat => toString n) (some wideTable) = .error .memory :=
  ⟨wideTable_inv, wideTable_print_faults _⟩

end T2
